import Mathlib

/-!
# Loopix / nym-mixnet: path selection, delay sampling and the benchmark client

A shallow embedding of

* `helpers/utilities.go`  : `Permute`, `RandomSample`, `RandomExponential`
* `client/client.go`      : `Client.GenerateDelaySequence`, `Client.GetRandomMixSequence`,
                            `Client.SendMessage`
* `client/benchclient/benchclient.go` : `NewBenchClient`, `sendMessages`, `createSummaryDoc`,
                            `RunBench`

Go values are modelled as follows.

* A function returning `(v, err)` returns a pair of options: `none` is Go's `nil`.
* A run-time fault (index or slice bound out of range, `panic(err)`) is an explicit outcome.
* `math/rand`, the clock, the network, the file system and the packages `packet_format`,
  `client` (the `NetClient`) and `config` are not part of the sources at hand: they appear
  as parameters (`MathRand`, `PacketFormat`, `BenchEnv`, `dial`) or as fields of the explicit
  world state.
* Text printed to stdout is left out, except the three values `createSummaryDoc` reports.
* `float64` is `F64`: NaN, the two infinities, negative zero and the finite values, the
  latter carried as rationals; the rounding of a quotient is a parameter.
-/

namespace Loopix

/-! ## Go outcomes -/

/-- Outcome of running a Go function body: it returns a value, or a run-time fault unwinds. -/
inductive Run (α : Type) where
  | ret (a : α)
  | fault (msg : String)
  deriving Repr, DecidableEq

/-! ## float64 -/

/-- A model of `float64`: `fin q` is a finite value (`fin 0` is `+0`), `negZero` is `-0`. -/
inductive F64 where
  | nan
  | inf (neg : Bool)
  | negZero
  | fin (q : ℚ)
  deriving DecidableEq

namespace F64

/-- Go's `x <= y` on `float64`: false as soon as one side is NaN, the two zeros are equal. -/
def le : F64 → F64 → Bool
  | nan, _ => false
  | _, nan => false
  | inf true, _ => true
  | _, inf false => true
  | inf false, _ => false
  | _, inf true => false
  | negZero, negZero => true
  | negZero, fin b => decide (0 ≤ b)
  | fin a, negZero => decide (a ≤ 0)
  | fin a, fin b => decide (a ≤ b)

/-- The constant `0.0`. -/
def zero : F64 := fin 0

/-- A signed zero. -/
def signedZero (neg : Bool) : F64 := if neg then negZero else fin 0

/-- IEEE-754 division `x / y`; `rnd` rounds the exact quotient of two finite non-zero
values to a `float64` (it may overflow to an infinity or underflow to a zero). -/
def div (rnd : ℚ → F64) : F64 → F64 → F64
  | nan, _ => nan
  | _, nan => nan
  | inf _, inf _ => nan
  | inf s, negZero => inf (!s)
  | inf s, fin b => inf (xor s (decide (b < 0)))
  | negZero, inf s => signedZero (!s)
  | fin a, inf s => signedZero (xor (decide (a < 0)) s)
  | negZero, negZero => nan
  | negZero, fin b => if b = 0 then nan else signedZero (decide (0 < b))
  | fin a, negZero => if a = 0 then nan else inf (decide (0 < a))
  | fin a, fin b =>
      if b = 0 then (if a = 0 then nan else inf (decide (a < 0)))
      else if a = 0 then signedZero (decide (b < 0))
      else rnd (a / b)

/-- A value that is neither NaN nor below zero: `+0`, a positive finite value or `+Inf`. -/
def NonNeg : F64 → Prop
  | nan => False
  | inf neg => neg = false
  | negZero => False
  | fin q => 0 ≤ q

instance : DecidablePred NonNeg := fun x => by
  cases x <;> unfold NonNeg <;> infer_instance

/-- Go's `x < y` on `float64`. -/
def lt (x y : F64) : Bool := le x y && !le y x

/-- A finite value that is not below zero, as `rand.ExpFloat64` yields
(its values lie in `(0, math.MaxFloat64]`). -/
def FiniteNonNeg : F64 → Prop
  | fin q => 0 ≤ q
  | _ => False

instance : DecidablePred FiniteNonNeg := fun x => by
  cases x <;> unfold FiniteNonNeg <;> infer_instance

/-- Exact rounding: every rational is taken to be representable. -/
def exact (q : ℚ) : F64 := fin q

end F64

/-! ## math/rand and the clock -/

/-- The package-level generator of `math/rand`, with state space `ρ`. -/
structure MathRand (ρ : Type) where
  /-- State installed by `rand.Seed(seed)`. -/
  Seed : Int → ρ
  /-- The slice `rand.Perm(n)` yields, and the state it leaves. -/
  Perm : ρ → Nat → List Nat × ρ
  /-- The value `rand.ExpFloat64()` yields, and the state it leaves. -/
  ExpFloat64 : ρ → F64 × ρ

/-- The part of the process state the helpers touch: the wall clock reading that
`time.Now().UTC().UnixNano()` returns and the state of the global generator. -/
structure World (ρ : Type) where
  now : Int
  rng : ρ

/-! ## helpers/utilities.go -/

/-- The fields of `config.MixConfig` the repository uses. -/
structure MixConfig where
  Id : String
  Host : String
  Port : String
  PubKey : List Nat
  deriving DecidableEq, Repr

instance : Inhabited MixConfig := ⟨⟨"", "", "", []⟩⟩

/-- A Go result pair `(value, error)`; `none` stands for `nil`. -/
abbrev Ret (α : Type) := Option α × Option String

/-- The loop `for i, v := range permutation { permutedData[v] = slice[i] }`, started at
index `i`: both the read `slice[i]` and the write `permutedData[v]` are bounds-checked. -/
def permuteLoop {α : Type} (slice : List α) : Nat → List Nat → List α → Run (List α)
  | _, [], permutedData => .ret permutedData
  | i, v :: rest, permutedData =>
      match slice[i]? with
      | none => .fault "index out of range"
      | some x =>
          if v < permutedData.length then permuteLoop slice (i + 1) rest (permutedData.set v x)
          else .fault "index out of range"

/-- `Permute(slice)`. -/
def Permute {ρ : Type} (R : MathRand ρ) (w : World ρ) (slice : List MixConfig) :
    World ρ × Run (Ret (List MixConfig)) :=
  if slice.length = 0 then
    (w, .ret (none, some " cannot permute an empty list of mixes"))
  else
    let w1 : World ρ := { w with rng := R.Seed w.now }
    let permutedData := List.replicate slice.length (default : MixConfig)
    let (permutation, rng2) := R.Perm w1.rng slice.length
    let w2 : World ρ := { w1 with rng := rng2 }
    match permuteLoop slice 0 permutation permutedData with
    | .fault m => (w2, .fault m)
    | .ret permutedData => (w2, .ret (some permutedData, none))

/-- `RandomSample(slice, length)`; the slice expression `permuted[:length]` faults unless
`0 <= length <= cap(permuted) = len(permuted)`, and slicing a nil slice gives a nil slice. -/
def RandomSample {ρ : Type} (R : MathRand ρ) (w : World ρ) (slice : List MixConfig)
    (length : Int) : World ρ × Run (Ret (List MixConfig)) :=
  if (slice.length : Int) < length then
    (w, .ret (none, some " cannot take a sample larger than the given list"))
  else
    match Permute R w slice with
    | (w1, .fault m) => (w1, .fault m)
    | (w1, .ret (_, some err)) => (w1, .ret (none, some err))
    | (w1, .ret (permuted, none)) =>
        if length < 0 ∨ ((permuted.getD []).length : Int) < length then
          (w1, .fault "slice bounds out of range")
        else (w1, .ret (permuted.map (fun p => p.take length.toNat), none))

/-- `RandomExponential(expParam)`: the generator is reseeded before the test. -/
def RandomExponential {ρ : Type} (R : MathRand ρ) (rnd : ℚ → F64) (w : World ρ)
    (expParam : F64) : World ρ × (F64 × Option String) :=
  let w1 : World ρ := { w with rng := R.Seed w.now }
  if F64.le expParam F64.zero then
    (w1, (F64.zero,
      some "the parameter of exponential distribution has to be larger than zero"))
  else
    let (e, rng2) := R.ExpFloat64 w1.rng
    ({ w1 with rng := rng2 }, (F64.div rnd e expParam, none))

/-! ## client/client.go -/

/-- The struct `publics.MixPubs`, with the fields the composite literal in `SendMessage` names. -/
structure MixPubs where
  Id : String
  Host : String
  Port : String
  PubKey : Int
  deriving DecidableEq, Repr

instance : Inhabited MixPubs := ⟨⟨"", "", "", 0⟩⟩

/-- The constant `desiredRateParameter = 5`, converted to `float64` at its use. -/
def desiredRateParameter : F64 := F64.fin 5

/-- The constant `pathLength = 2`. -/
def pathLength : Int := 2

/-- The struct `Client` (its listener is left out). -/
structure Client where
  Id : String
  Host : String
  Port : String
  PubKey : Int
  PrvKey : Int
  ActiveMixes : List MixPubs
  deriving DecidableEq, Repr

/-- The package `packet_format`, with packets of type `π`. -/
structure PacketFormat (π : Type) where
  Encode : String → List MixPubs → List F64 → π
  ToString : π → String

/-- One call of `Client.EncodeMessage`, with the arguments it received. -/
structure EncodeCall where
  message : String
  path : List MixPubs
  delays : List F64
  deriving DecidableEq

/-- Process state of the basic client: the helpers' world, the calls of `EncodeMessage`
made so far and the `(address, packet)` pairs written to a connection, oldest first. -/
structure ClientWorld (ρ : Type) extends World ρ where
  encodeCalls : List EncodeCall
  wire : List (String × String)

/-- The loop of `GenerateDelaySequence` with `k` iterations left. -/
def delayLoop {ρ : Type} (R : MathRand ρ) (rnd : ℚ → F64) (desiredRateParameter : F64) :
    Nat → ρ → List F64 → List F64 × ρ
  | 0, g, delays => (delays, g)
  | k + 1, g, delays =>
      let (e, g1) := R.ExpFloat64 g
      let sample := F64.div rnd e desiredRateParameter
      delayLoop R rnd desiredRateParameter k g1 (delays ++ [sample])

/-- `Client.GenerateDelaySequence(desiredRateParameter, length)`: the loop
`for i := 0; i < length; i++` runs `max length 0` times; the nil slice is the empty list. -/
def Client.GenerateDelaySequence {ρ : Type} (R : MathRand ρ) (rnd : ℚ → F64) (w : World ρ)
    (desiredRateParameter : F64) (length : Int) : World ρ × List F64 :=
  let w1 : World ρ := { w with rng := R.Seed w.now }
  let (delays, g) := delayLoop R rnd desiredRateParameter length.toNat w1.rng []
  ({ w1 with rng := g }, delays)

/-- `Client.GetRandomMixSequence(data, length)`; `permutedData[:length]` faults unless
`0 <= length <= cap(permutedData) = len(data)`. -/
def Client.GetRandomMixSequence {ρ : Type} (R : MathRand ρ) (w : World ρ)
    (data : List MixPubs) (length : Int) : World ρ × Run (List MixPubs) :=
  let w1 : World ρ := { w with rng := R.Seed w.now }
  let permutedData := List.replicate data.length (default : MixPubs)
  let (permutation, rng2) := R.Perm w1.rng data.length
  let w2 : World ρ := { w1 with rng := rng2 }
  match permuteLoop data 0 permutation permutedData with
  | .fault m => (w2, .fault m)
  | .ret permutedData =>
      if length < 0 ∨ (permutedData.length : Int) < length then
        (w2, .fault "slice bounds out of range")
      else (w2, .ret (permutedData.take length.toNat))

/-- `Client.Send(packet, host, port)`; `dial` tells whether `net.Dial` succeeds. When it does
not, `conn` is a nil interface and `defer conn.Close()`, which precedes the test of `err`,
faults. -/
def Client.Send {ρ : Type} (dial : String → Bool) (w : ClientWorld ρ)
    (packet host port : String) : ClientWorld ρ × Run Unit :=
  let addr := host ++ ":" ++ port
  if dial addr then ({ w with wire := w.wire ++ [(addr, packet)] }, .ret ())
  else (w, .fault "invalid memory address or nil pointer dereference")

/-- `Client.SendMessage(message, recipientHost, recipientPort)`; `elapsed` is the time that
passes between the two readings of the clock, the one in `GetRandomMixSequence` and the one
in `GenerateDelaySequence`. -/
def Client.SendMessage {ρ π : Type} (R : MathRand ρ) (rnd : ℚ → F64) (P : PacketFormat π)
    (dial : String → Bool) (elapsed : Int) (c : Client) (w : ClientWorld ρ)
    (message recipientHost recipientPort : String) : ClientWorld ρ × Run Unit :=
  match Client.GetRandomMixSequence R w.toWorld c.ActiveMixes pathLength with
  | (w1, .fault m) => ({ w with toWorld := w1 }, .fault m)
  | (w1, .ret path) =>
      let path := path ++ [({ Id := c.Id, Host := c.Host, Port := c.Port, PubKey := 0 } : MixPubs)]
      let (w2, delays) := Client.GenerateDelaySequence R rnd { w1 with now := w1.now + elapsed }
        desiredRateParameter pathLength
      let packet := P.Encode message path delays
      let w3 : ClientWorld ρ :=
        { w with toWorld := w2, encodeCalls := w.encodeCalls ++ [⟨message, path, delays⟩] }
      Client.Send dial w3 (P.ToString packet) recipientHost recipientPort

/-! ## client/benchclient/benchclient.go -/

/-- The constant `payloadPrefix`. -/
def payloadPrefix : String := "testMessage"

/-- A `time.Time`, as the number of nanoseconds since the zero Time. -/
abbrev Time := Int

/-- A `time.Duration`, in nanoseconds. -/
abbrev Duration := Int

/-- The method `t.Before(u)`. -/
def Time.Before (t u : Time) : Bool := decide (t < u)

/-- The method `t.After(u)`. -/
def Time.After (t u : Time) : Bool := decide (t > u)

/-- The method `t.Sub(u)`. -/
def Time.Sub (t u : Time) : Duration := t - u

/-- The struct `timestampedMessage`. -/
structure timestampedMessage where
  content : String
  timestamp : Time
  deriving DecidableEq, Repr

instance : Inhabited timestampedMessage := ⟨⟨"", 0⟩⟩

/-- The struct `BenchClient`; the embedded `NetClient` is the environment `BenchEnv`, the
constant `recipient` is left out. -/
structure BenchClient where
  numberMessages : Int
  interval : Duration
  sentMessages : List timestampedMessage
  pregen : Bool
  pregeneratedPacket : Option (List Nat)
  deriving DecidableEq, Repr

/-- What the benchmark client needs from outside the repository: the embedded `NetClient`,
`config.WrapWithFlag`, `os.Create`, and how long the blocking calls take. Calls are numbered
from 0 in the order they are made. -/
structure BenchEnv where
  /-- The error (nil is `none`) that call `k` of `NetClient.SendMessage` returns for a message. -/
  SendMessage : Nat → String → Option String
  /-- What `NetClient.EncodeMessage` returns for a message. -/
  EncodeMessage : String → Ret (List Nat)
  /-- What `config.WrapWithFlag(config.CommFlag, packet)` returns. -/
  WrapWithFlag : List Nat → Ret (List Nat)
  /-- The error of `NetClient.Start`. -/
  Start : Option String
  /-- The error of `os.Create(summaryFileName)`. -/
  Create : Option String
  /-- Time that passes during call `k` of `SendMessage`. -/
  sendDur : Nat → Duration
  /-- Time that passes while packet `k` is put on `OutQueue`. -/
  queueDur : Nat → Duration
  /-- Time that passes during call `k` of `time.Sleep(d)`. -/
  sleepDur : Nat → Duration → Duration

/-- A line of the summary file: the header, or the timestamp and content of one message. -/
inductive SummaryLine where
  | header
  | row (timestamp : Time) (content : String)
  deriving DecidableEq, Repr

/-- The three values printed at the end of `createSummaryDoc`. -/
structure SummaryReport where
  earliest : Time
  latest : Time
  timedelta : Duration
  deriving DecidableEq, Repr

/-- Process state of the benchmark: the clock, the messages handed to `SendMessage` and the
packets put on `OutQueue` (oldest first), the number of `Sleep` calls made, the summary file
(`none` until created), the report printed, and the flags `RunBench` sets. -/
structure BenchWorld where
  now : Time
  sent : List String
  outQueue : List (List Nat)
  sleeps : Nat
  file : Option (List SummaryLine)
  report : Option SummaryReport
  coverTraffic : Bool
  started : Bool
  shutdown : Bool
  deriving DecidableEq, Repr

/-- The pre-generated branch of `sendMessages`: `k` iterations left, loop index `i`. -/
def pregenLoop (E : BenchEnv) (interval : Duration) :
    Nat → Nat → BenchClient → BenchWorld → (BenchClient × BenchWorld) × Run Unit
  | 0, _, bc, w => ((bc, w), .ret ())
  | k + 1, i, bc, w =>
      let w1 : BenchWorld :=
        { w with outQueue := w.outQueue ++ [bc.pregeneratedPacket.getD []],
                 now := w.now + E.queueDur w.outQueue.length }
      if i < bc.sentMessages.length then
        let bc1 : BenchClient :=
          { bc with sentMessages := bc.sentMessages.set i ⟨payloadPrefix, w1.now⟩ }
        let w2 : BenchWorld :=
          { w1 with now := w1.now + E.sleepDur w1.sleeps interval, sleeps := w1.sleeps + 1 }
        pregenLoop E interval k (i + 1) bc1 w2
      else ((bc, w1), .fault "index out of range")

/-- The other branch of `sendMessages`: `k` iterations left, loop index `i`. An error of
`SendMessage` is raised with `panic(err)`. -/
def sendLoop (E : BenchEnv) (interval : Duration) :
    Nat → Nat → BenchClient → BenchWorld → (BenchClient × BenchWorld) × Run Unit
  | 0, _, bc, w => ((bc, w), .ret ())
  | k + 1, i, bc, w =>
      let msg := payloadPrefix ++ toString i
      let w1 : BenchWorld :=
        { w with sent := w.sent ++ [msg], now := w.now + E.sendDur w.sent.length }
      match E.SendMessage w.sent.length msg with
      | some err => ((bc, w1), .fault err)
      | none =>
          if i < bc.sentMessages.length then
            let bc1 : BenchClient :=
              { bc with sentMessages := bc.sentMessages.set i ⟨msg, w1.now⟩ }
            let w2 : BenchWorld :=
              { w1 with now := w1.now + E.sleepDur w1.sleeps interval, sleeps := w1.sleeps + 1 }
            sendLoop E interval k (i + 1) bc1 w2
          else ((bc, w1), .fault "index out of range")

/-- `BenchClient.sendMessages(n, interval)`. -/
def BenchClient.sendMessages (E : BenchEnv) (bc : BenchClient) (w : BenchWorld) (n : Int)
    (interval : Duration) : (BenchClient × BenchWorld) × Run Unit :=
  if bc.pregen then pregenLoop E interval n.toNat 0 bc w
  else sendLoop E interval n.toNat 0 bc w

/-- One iteration of the loop of `createSummaryDoc` over
`(earliestMessageTimestamp, latestMessageTimestamp, lines written)`. -/
def summaryStep (acc : Time × Time × List SummaryLine) (msg : timestampedMessage) :
    Time × Time × List SummaryLine :=
  let earliest := if Time.Before msg.timestamp acc.1 then msg.timestamp else acc.1
  let latest := if Time.After msg.timestamp acc.2.1 then msg.timestamp else acc.2.1
  (earliest, latest, acc.2.2 ++ [SummaryLine.row msg.timestamp msg.content])

/-- `BenchClient.createSummaryDoc()`; the read of `sentMessages[0]` comes after the header
is written and before the loop. -/
def BenchClient.createSummaryDoc (E : BenchEnv) (bc : BenchClient) (w : BenchWorld) :
    BenchWorld × Run (Option String) :=
  match E.Create with
  | some err => (w, .ret (some err))
  | none =>
      let f := [SummaryLine.header]
      match bc.sentMessages[0]? with
      | none => ({ w with file := some f }, .fault "index out of range")
      | some m0 =>
          let r := bc.sentMessages.foldl summaryStep (m0.timestamp, m0.timestamp, f)
          let earliest := r.1
          let latest := r.2.1
          ({ w with file := some r.2.2,
                    report := some ⟨earliest, latest, Time.Sub latest earliest⟩ }, .ret none)

/-- `BenchClient.pregeneratePacket(message, recipient)`. -/
def BenchClient.pregeneratePacket (E : BenchEnv) (bc : BenchClient) (message : String) :
    BenchClient × Option String :=
  match E.EncodeMessage message with
  | (_, some err) => (bc, some err)
  | (sphinxPacket, none) =>
      match E.WrapWithFlag (sphinxPacket.getD []) with
      | (_, some err) => (bc, some err)
      | (packetBytes, none) => ({ bc with pregeneratedPacket := packetBytes }, none)

/-- The deferred `bc.Shutdown()`. -/
def BenchWorld.Shutdown (w : BenchWorld) : BenchWorld := { w with shutdown := true }

/-- `BenchClient.RunBench()`: the deferred `Shutdown` runs on every way out, a fault
included. The four `Toggle...(false)` calls are the write `coverTraffic := false`; the calls
`UpdateDesiredRateParameter` and `DisableLogging` touch nothing the model keeps. -/
def BenchClient.RunBench (E : BenchEnv) (bc : BenchClient) (w : BenchWorld) :
    (BenchClient × BenchWorld) × Run (Option String) :=
  let w0 : BenchWorld := { w with coverTraffic := false }
  match E.Start with
  | some err => ((bc, w0.Shutdown), .ret (some err))
  | none =>
      let w1 : BenchWorld := { w0 with started := true }
      let pre : BenchClient × Option String :=
        if bc.pregen then BenchClient.pregeneratePacket E bc payloadPrefix else (bc, none)
      match pre with
      | (bc1, some err) => ((bc1, w1.Shutdown), .ret (some err))
      | (bc1, none) =>
          match BenchClient.sendMessages E bc1 w1 bc1.numberMessages bc1.interval with
          | ((bc2, w2), .fault m) => ((bc2, w2.Shutdown), .fault m)
          | ((bc2, w2), .ret _) =>
              match BenchClient.createSummaryDoc E bc2 w2 with
              | (w3, .fault m) => ((bc2, w3.Shutdown), .fault m)
              | (w3, .ret (some err)) => ((bc2, w3.Shutdown), .ret (some err))
              | (w3, .ret none) => ((bc2, w3.Shutdown), .ret none)

/-- `NewBenchClient(nc, numberMessages, interval, pregen)`; `make` faults on a negative
length. -/
def NewBenchClient (numberMessages : Int) (interval : Duration) (pregen : Bool) :
    Run (Ret BenchClient) :=
  if numberMessages < 0 then .fault "makeslice: len out of range"
  else .ret (some
    { numberMessages := numberMessages
      interval := interval
      sentMessages := List.replicate numberMessages.toNat default
      pregen := pregen
      pregeneratedPacket := none }, none)

/-- The world a benchmark process starts in, at clock reading `t0`. -/
def BenchWorld.init (t0 : Time) : BenchWorld :=
  { now := t0, sent := [], outQueue := [], sleeps := 0, file := none, report := none,
    coverTraffic := true, started := false, shutdown := false }

/-! ## Concrete instances -/

/-- A small deterministic generator: the state counts draws from the seed on; `Perm` yields
the reversed or the identity order, `ExpFloat64` yields `state + 1`. -/
def toyRand : MathRand Nat where
  Seed := fun s => s.toNat
  Perm := fun g n => (if g % 2 = 0 then (List.range n).reverse else List.range n, g + 1)
  ExpFloat64 := fun g => (F64.fin ((g : ℚ) + 1), g + 1)

/-- World at clock reading 0 with a fresh generator. -/
def world0 : World Nat := ⟨0, 0⟩

/-- Three mixes. -/
def mixA : MixConfig := ⟨"MixA", "localhost", "9001", [1]⟩

def mixB : MixConfig := ⟨"MixB", "localhost", "9002", [2]⟩

def mixC : MixConfig := ⟨"MixC", "localhost", "9003", [3]⟩

/-- A packet format that keeps the message only. -/
def toyFormat : PacketFormat String where
  Encode := fun message _ _ => message
  ToString := fun p => p

/-- A basic client with three active mixes. -/
def alice : Client :=
  { Id := "Alice", Host := "localhost", Port := "9000", PubKey := 11, PrvKey := 12,
    ActiveMixes := [⟨"Mix1", "localhost", "9001", 1⟩, ⟨"Mix2", "localhost", "9002", 2⟩,
      ⟨"Mix3", "localhost", "9003", 3⟩] }

/-- The basic client's world at clock reading 0, nothing encoded or written yet. -/
def clientWorld0 : ClientWorld Nat := { now := 0, rng := 0, encodeCalls := [], wire := [] }

/-- An environment in which every call succeeds, `SendMessage` takes 1ms and `Sleep(d)`
takes `max d 0` plus 1ms. -/
def benchEnvOk : BenchEnv where
  SendMessage := fun _ _ => none
  EncodeMessage := fun _ => (some [0], none)
  WrapWithFlag := fun p => (some (198 :: p), none)
  Start := none
  Create := none
  sendDur := fun _ => 1000000
  queueDur := fun _ => 0
  sleepDur := fun _ d => max d 0 + 1000000

/-- As `benchEnvOk`, but call 2 of `SendMessage` fails. -/
def benchEnvFail : BenchEnv :=
  { benchEnvOk with SendMessage := fun k _ => if k = 2 then some "connection refused" else none }

/-- As `benchEnvOk`, but `EncodeMessage` fails. -/
def benchEnvNoEncode : BenchEnv :=
  { benchEnvOk with EncodeMessage := fun _ => (none, some "encoding failed") }

/-! ## Lemmas on the permutation loop -/

theorem permuteLoop_spec {α : Type} (slice : List α) :
    ∀ (p : List Nat) (i : Nat) (acc : List α),
      (∀ v ∈ p, v < acc.length) → i + p.length ≤ slice.length → p.Nodup →
      ∃ res, permuteLoop slice i p acc = .ret res ∧ res.length = acc.length ∧
        (∀ k, k < p.length → ∀ v, p[k]? = some v → res[v]? = slice[i + k]?) ∧
        (∀ v, v ∉ p → res[v]? = acc[v]?) := by
  intro p
  induction p with
  | nil =>
    intro i acc _ _ _
    exact ⟨acc, rfl, rfl, by intro k hk; simp at hk, by intro v _; rfl⟩
  | cons v rest ih =>
    intro i acc hlt hlen hnd
    have hi : i < slice.length := by simp at hlen; omega
    have hv : v < acc.length := hlt v (by simp)
    have hnd' := List.nodup_cons.mp hnd
    obtain ⟨res, hres, hl, hk, hout⟩ := ih (i + 1) (acc.set v slice[i])
      (by intro u hu; simpa using hlt u (by simp [hu]))
      (by simp at hlen ⊢; omega) hnd'.2
    refine ⟨res, ?_, ?_, ?_, ?_⟩
    · simp [permuteLoop, List.getElem?_eq_getElem hi, hv, hres]
    · simpa using hl
    · intro k hkl u hu
      cases k with
      | zero =>
        simp at hu
        subst hu
        rw [hout v hnd'.1]
        simp [List.getElem?_eq_getElem hi, hv]
      | succ k =>
        simp at hu hkl
        have := hk k hkl u hu
        rw [this]
        congr 1
        omega
    · intro u hu
      simp at hu
      rw [hout u hu.2]
      rw [List.getElem?_set_ne (Ne.symm hu.1)]

theorem permuteLoop_of_perm {α : Type} [Inhabited α] (slice : List α) (p : List Nat)
    (hp : p.Perm (List.range slice.length)) :
    ∃ res, permuteLoop slice 0 p (List.replicate slice.length default) = .ret res ∧
      res.length = slice.length ∧
      (∀ k, k < slice.length → ∀ v, p[k]? = some v → res[v]? = slice[k]?) := by
  have hlen : p.length = slice.length := by simpa using hp.length_eq
  have hnd : p.Nodup := hp.nodup_iff.mpr (List.nodup_range _)
  have hlt : ∀ v ∈ p, v < (List.replicate slice.length (default : α)).length := by
    intro v hv
    simpa using (hp.mem_iff.mp hv)
  obtain ⟨res, hres, hl, hk, _⟩ :=
    permuteLoop_spec slice p 0 (List.replicate slice.length default) hlt (by omega) hnd
  refine ⟨res, hres, by simpa using hl, ?_⟩
  intro k hkl v hv
  simpa using hk k (by omega) v hv

theorem take_sample_of_perm {α : Type} (slice res : List α) (p : List Nat)
    (hp : p.Perm (List.range slice.length)) (hlen : res.length = slice.length)
    (hk : ∀ k, k < slice.length → ∀ v, p[k]? = some v → res[v]? = slice[k]?) (m : Nat) :
    ∃ f : Fin (res.take m).length → Fin slice.length,
      Function.Injective f ∧ ∀ j, (res.take m).get j = slice.get (f j) := by
  have hpl : p.length = slice.length := by simpa using hp.length_eq
  have hex : ∀ j : Fin (res.take m).length, ∃ k : Fin slice.length, p[k.val]? = some j.val := by
    intro j
    have hj : j.val < slice.length := by
      have := j.isLt
      simp at this
      omega
    have hmem : j.val ∈ p := hp.mem_iff.mpr (by simpa using hj)
    obtain ⟨k, hkp⟩ := List.mem_iff_getElem?.mp hmem
    have hkl : k < p.length := by
      by_contra hc
      rw [List.getElem?_eq_none (by omega)] at hkp
      cases hkp
    exact ⟨⟨k, by omega⟩, hkp⟩
  choose f hf using hex
  refine ⟨f, ?_, ?_⟩
  · intro a b hab
    have ha := hf a
    rw [hab, hf b] at ha
    exact Fin.ext (Option.some.inj ha).symm
  · intro j
    have h1 := hk (f j).val (f j).isLt j.val (hf j)
    have hj : j.val < res.length := by
      have := j.isLt
      simp at this
      omega
    have h2 : (res.take m)[j.val]? = res[j.val]? := by
      rw [List.getElem?_take]
      have := j.isLt
      simp at this
      simp [this.1]
    have h3 : (res.take m)[j.val]? = slice[(f j).val]? := by rw [h2, h1]
    rw [List.getElem?_eq_getElem j.isLt, List.getElem?_eq_getElem (f j).isLt] at h3
    simpa using h3

/-- What `Permute` returns when `rand.Perm` yields a permutation of `0 .. len(slice) - 1`
and `slice` is not empty. -/
theorem Permute_of_perm {ρ : Type} (R : MathRand ρ) (w : World ρ) (slice : List MixConfig)
    (hne : slice.length ≠ 0)
    (hp : (R.Perm (R.Seed w.now) slice.length).1.Perm (List.range slice.length)) :
    ∃ res, (Permute R w slice).2 = .ret (some res, none) ∧ res.length = slice.length ∧
      (∀ k, k < slice.length → ∀ v,
        (R.Perm (R.Seed w.now) slice.length).1[k]? = some v → res[v]? = slice[k]?) := by
  obtain ⟨res, hres, hl, hk⟩ := permuteLoop_of_perm slice _ hp
  refine ⟨res, ?_, hl, hk⟩
  simp only [Permute, hne, if_false]
  rw [hres]

/-- The second component of `RandomSample` in terms of that of `Permute`. -/
theorem RandomSample_snd {ρ : Type} (R : MathRand ρ) (w : World ρ) (slice : List MixConfig)
    (length : Int) (res : List MixConfig) (hle : length ≤ slice.length)
    (hP : (Permute R w slice).2 = .ret (some res, none)) :
    (RandomSample R w slice length).2 =
      if length < 0 ∨ (res.length : Int) < length then .fault "slice bounds out of range"
      else .ret (some (res.take length.toNat), none) := by
  have hlt : ¬ ((slice.length : Int) < length) := by omega
  unfold RandomSample
  rw [if_neg hlt]
  rcases hPw : Permute R w slice with ⟨w1, o⟩
  rw [hPw] at hP
  simp only at hP
  subst hP
  simp only [Option.getD_some, Option.map_some']
  split <;> rfl

/-- C1: whenever `RandomSample(slice, length)` returns a nil error, and whatever permutation
of `0 .. len(slice) - 1` the call of `rand.Perm` yields, the value returned is a slice `r`
that is a sample of `slice` without replacement: an injective map `f` from the positions of
`r` to the positions of `slice` has `r[j] = slice[f j]` for every `j`; hence every element
of `r` is an element of `slice`, and `r` has no repeated mix when `slice` has none. -/
theorem RandomSample_without_replacement {ρ : Type} (R : MathRand ρ) (w : World ρ)
    (slice : List MixConfig) (length : Int) (v : Option (List MixConfig))
    (hperm : (R.Perm (R.Seed w.now) slice.length).1.Perm (List.range slice.length))
    (hok : (RandomSample R w slice length).2 = .ret (v, none)) :
    ∃ r, v = some r ∧
      (∃ f : Fin r.length → Fin slice.length,
        Function.Injective f ∧ ∀ j, r.get j = slice.get (f j)) ∧
      (∀ x ∈ r, x ∈ slice) ∧ (slice.Nodup → r.Nodup) := by
  by_cases hlt : (slice.length : Int) < length
  · simp [RandomSample, hlt] at hok
  by_cases hne : slice.length = 0
  · simp only [RandomSample, if_neg hlt, Permute, if_pos hne] at hok
    cases hok
  obtain ⟨res, hP, hl, hk⟩ := Permute_of_perm R w slice hne hperm
  rw [RandomSample_snd R w slice length res (by omega) hP] at hok
  split at hok
  · cases hok
  · have hv : v = some (res.take length.toNat) := by
      injection hok with h
      exact (congrArg Prod.fst h).symm
    obtain ⟨f, hinj, hf⟩ := take_sample_of_perm slice res _ hperm hl hk length.toNat
    refine ⟨res.take length.toNat, hv, ⟨f, hinj, hf⟩, ?_, ?_⟩
    · intro x hx
      obtain ⟨j, hj⟩ := List.get_of_mem hx
      rw [← hj, hf j]
      exact List.get_mem _ _ _
    · intro hnd
      rw [List.nodup_iff_injective_get]
      intro a b hab
      rw [hf a, hf b] at hab
      exact hinj (List.nodup_iff_injective_get.mp hnd hab)

theorem RandomSample_without_replacement_witness :
    ((toyRand.Perm (toyRand.Seed world0.now) [mixA, mixB, mixC].length).1.Perm
        (List.range [mixA, mixB, mixC].length)) ∧
      (RandomSample toyRand world0 [mixA, mixB, mixC] 2).2 = .ret (some [mixC, mixB], none) ∧
      ∃ r, some [mixC, mixB] = some r ∧
        (∃ f : Fin r.length → Fin [mixA, mixB, mixC].length,
          Function.Injective f ∧ ∀ j, r.get j = [mixA, mixB, mixC].get (f j)) ∧
        (∀ x ∈ r, x ∈ [mixA, mixB, mixC]) ∧ ([mixA, mixB, mixC].Nodup → r.Nodup) :=
  ⟨by decide, by decide,
    RandomSample_without_replacement toyRand world0 [mixA, mixB, mixC] 2 (some [mixC, mixB])
      (by decide) (by decide)⟩

/-- C2: when `len(slice) < length`, `RandomSample(slice, length)` returns a nil sample and
a non-nil error, and the world is the one it was called in: the generator is neither
reseeded nor drawn from, so nothing is permuted. -/
theorem RandomSample_too_long {ρ : Type} (R : MathRand ρ) (w : World ρ)
    (slice : List MixConfig) (length : Int) (h : (slice.length : Int) < length) :
    RandomSample R w slice length =
      (w, .ret (none, some " cannot take a sample larger than the given list")) := by
  simp [RandomSample, h]

theorem RandomSample_too_long_witness :
    (([mixA].length : Int) < 2) ∧
      RandomSample toyRand world0 [mixA] 2 =
        (world0, .ret (none, some " cannot take a sample larger than the given list")) :=
  ⟨by decide, RandomSample_too_long toyRand world0 [mixA] 2 (by decide)⟩

/-! ## The basic client -/

theorem delayLoop_length {ρ : Type} (R : MathRand ρ) (rnd : ℚ → F64) (rate : F64) :
    ∀ (k : Nat) (g : ρ) (delays : List F64),
      (delayLoop R rnd rate k g delays).1.length = delays.length + k := by
  intro k
  induction k with
  | zero => intro g delays; rfl
  | succ k ih =>
    intro g delays
    simp only [delayLoop]
    rw [ih]
    simp
    omega

theorem GenerateDelaySequence_length {ρ : Type} (R : MathRand ρ) (rnd : ℚ → F64) (w : World ρ)
    (rate : F64) (length : Int) :
    (Client.GenerateDelaySequence R rnd w rate length).2.length = length.toNat := by
  simp [Client.GenerateDelaySequence, delayLoop_length]

theorem GetRandomMixSequence_of_perm {ρ : Type} (R : MathRand ρ) (w : World ρ)
    (data : List MixPubs) (length : Int) (h0 : 0 ≤ length) (hle : length ≤ data.length)
    (hp : (R.Perm (R.Seed w.now) data.length).1.Perm (List.range data.length)) :
    ∃ res : List MixPubs, Client.GetRandomMixSequence R w data length =
        (⟨w.now, (R.Perm (R.Seed w.now) data.length).2⟩, .ret (res.take length.toNat)) ∧
      res.length = data.length ∧
      (∀ k, k < data.length → ∀ v,
        (R.Perm (R.Seed w.now) data.length).1[k]? = some v → res[v]? = data[k]?) := by
  obtain ⟨res, hres, hl, hk⟩ := permuteLoop_of_perm data _ hp
  refine ⟨res, ?_, hl, hk⟩
  have hb : ¬ (length < 0 ∨ (res.length : Int) < length) := by rw [hl]; omega
  simp only [Client.GetRandomMixSequence]
  rw [hres]
  simp only [if_neg hb]

/-- The calls of `EncodeMessage` that `SendMessage` leaves in the world, when the client
has at least `pathLength` active mixes and `rand.Perm` yields a permutation. -/
theorem SendMessage_encodeCalls {ρ π : Type} (R : MathRand ρ) (rnd : ℚ → F64)
    (P : PacketFormat π) (dial : String → Bool) (elapsed : Int) (c : Client)
    (w : ClientWorld ρ) (message recipientHost recipientPort : String)
    (hmix : pathLength ≤ c.ActiveMixes.length)
    (hperm : (R.Perm (R.Seed w.now) c.ActiveMixes.length).1.Perm
      (List.range c.ActiveMixes.length)) :
    ∃ mixes delays,
      (Client.SendMessage R rnd P dial elapsed c w message recipientHost recipientPort).1.encodeCalls
        = w.encodeCalls ++ [⟨message, mixes ++ [⟨c.Id, c.Host, c.Port, 0⟩], delays⟩] ∧
      mixes.length = 2 ∧ (∀ x ∈ mixes, x ∈ c.ActiveMixes) ∧ delays.length = 2 := by
  obtain ⟨res, hres, hl, hk⟩ :=
    GetRandomMixSequence_of_perm R w.toWorld c.ActiveMixes pathLength (by decide) hmix hperm
  obtain ⟨f, _, hf⟩ := take_sample_of_perm c.ActiveMixes res _ hperm hl hk pathLength.toNat
  have h2 : (2 : Int) ≤ c.ActiveMixes.length := hmix
  refine ⟨res.take pathLength.toNat,
    (Client.GenerateDelaySequence R rnd
      { now := w.now + elapsed, rng := (R.Perm (R.Seed w.now) c.ActiveMixes.length).2 }
      desiredRateParameter pathLength).2, ?_, ?_, ?_, ?_⟩
  · simp only [Client.SendMessage]
    rw [hres]
    simp only [Client.Send]
    split <;> rfl
  · simp [pathLength, hl]
    omega
  · intro x hx
    obtain ⟨j, hj⟩ := List.get_of_mem hx
    rw [← hj, hf j]
    exact List.get_mem _ _ _
  · rw [GenerateDelaySequence_length]
    rfl

/-- C3, as the code has it: for every client with at least `pathLength` (= 2) active mixes,
and whatever permutation `rand.Perm` yields, `SendMessage` calls `EncodeMessage` once, with
a path of exactly `pathLength + 1` entries whose first `pathLength` entries are active mixes
of the client and whose final entry is the sending client's own descriptor
`MixPubs{Id: c.Id, Host: c.Host, Port: c.Port, PubKey: 0}`, whatever the recipient is. -/
theorem SendMessage_path {ρ π : Type} (R : MathRand ρ) (rnd : ℚ → F64)
    (P : PacketFormat π) (dial : String → Bool) (elapsed : Int) (c : Client)
    (w : ClientWorld ρ) (message recipientHost recipientPort : String)
    (hmix : pathLength ≤ c.ActiveMixes.length)
    (hperm : (R.Perm (R.Seed w.now) c.ActiveMixes.length).1.Perm
      (List.range c.ActiveMixes.length)) :
    ∃ call : EncodeCall,
      (Client.SendMessage R rnd P dial elapsed c w message recipientHost recipientPort).1.encodeCalls
        = w.encodeCalls ++ [call] ∧
      call.message = message ∧
      (call.path.length : Int) = pathLength + 1 ∧
      (∀ x ∈ call.path.take pathLength.toNat, x ∈ c.ActiveMixes) ∧
      call.path[pathLength.toNat]? = some ⟨c.Id, c.Host, c.Port, 0⟩ := by
  obtain ⟨mixes, delays, hcalls, hm, hmem, _⟩ :=
    SendMessage_encodeCalls R rnd P dial elapsed c w message recipientHost recipientPort
      hmix hperm
  refine ⟨_, hcalls, rfl, ?_, ?_, ?_⟩
  · simp [hm, pathLength]
  · intro x hx
    have h2 : pathLength.toNat = mixes.length := by rw [hm]; rfl
    simp only [h2, List.take_left'] at hx
    exact hmem x hx
  · have h2 : pathLength.toNat = mixes.length := by rw [hm]; rfl
    simp [h2]

theorem SendMessage_path_witness :
    (pathLength ≤ alice.ActiveMixes.length) ∧
      ((toyRand.Perm (toyRand.Seed clientWorld0.now) alice.ActiveMixes.length).1.Perm
        (List.range alice.ActiveMixes.length)) ∧
      ∃ call : EncodeCall,
        (Client.SendMessage toyRand F64.exact toyFormat (fun _ => true) 0 alice clientWorld0
            "Hello world" "localhost" "3330").1.encodeCalls = clientWorld0.encodeCalls ++ [call] ∧
        call.message = "Hello world" ∧
        (call.path.length : Int) = pathLength + 1 ∧
        (∀ x ∈ call.path.take pathLength.toNat, x ∈ alice.ActiveMixes) ∧
        call.path[pathLength.toNat]? = some ⟨alice.Id, alice.Host, alice.Port, 0⟩ :=
  ⟨by decide, by decide,
    SendMessage_path toyRand F64.exact toyFormat (fun _ => true) 0 alice clientWorld0
      "Hello world" "localhost" "3330" (by decide) (by decide)⟩

/-- C3 fails as stated: the client Alice at `localhost:9000`, with three active mixes, sends
to the recipient at `localhost:3330` and to the recipient at `10.0.0.7:4000`. Both paths end
in the entry `{Alice, localhost, 9000, 0}`, the sender itself; the entry is built from the
client's own fields and no provider of the recipient is consulted. -/
theorem SendMessage_final_entry_is_sender :
    ((Client.SendMessage toyRand F64.exact toyFormat (fun _ => true) 0 alice clientWorld0
        "Hello world" "localhost" "3330").1.encodeCalls.map (fun call => call.path)
      = [[⟨"Mix3", "localhost", "9003", 3⟩, ⟨"Mix2", "localhost", "9002", 2⟩,
          ⟨"Alice", "localhost", "9000", 0⟩]]) ∧
    ((Client.SendMessage toyRand F64.exact toyFormat (fun _ => true) 0 alice clientWorld0
        "Hello world" "10.0.0.7" "4000").1.encodeCalls.map (fun call => call.path)
      = [[⟨"Mix3", "localhost", "9003", 3⟩, ⟨"Mix2", "localhost", "9002", 2⟩,
          ⟨"Alice", "localhost", "9000", 0⟩]]) := by
  constructor <;> rfl

/-- C4, as the code has it: for every client with at least `pathLength` active mixes, the
delay sequence handed to `EncodeMessage` has `pathLength` entries and the path handed with
it has one entry more, `len(path) = len(delays) + 1`: the appended final entry has no delay. -/
theorem SendMessage_delays {ρ π : Type} (R : MathRand ρ) (rnd : ℚ → F64)
    (P : PacketFormat π) (dial : String → Bool) (elapsed : Int) (c : Client)
    (w : ClientWorld ρ) (message recipientHost recipientPort : String)
    (hmix : pathLength ≤ c.ActiveMixes.length)
    (hperm : (R.Perm (R.Seed w.now) c.ActiveMixes.length).1.Perm
      (List.range c.ActiveMixes.length)) :
    ∃ call : EncodeCall,
      (Client.SendMessage R rnd P dial elapsed c w message recipientHost recipientPort).1.encodeCalls
        = w.encodeCalls ++ [call] ∧
      (call.delays.length : Int) = pathLength ∧
      call.path.length = call.delays.length + 1 := by
  obtain ⟨mixes, delays, hcalls, hm, _, hd⟩ :=
    SendMessage_encodeCalls R rnd P dial elapsed c w message recipientHost recipientPort
      hmix hperm
  refine ⟨_, hcalls, ?_, ?_⟩
  · simp [hd, pathLength]
  · simp [hd, hm]

theorem SendMessage_delays_witness :
    (pathLength ≤ alice.ActiveMixes.length) ∧
      ((toyRand.Perm (toyRand.Seed clientWorld0.now) alice.ActiveMixes.length).1.Perm
        (List.range alice.ActiveMixes.length)) ∧
      ∃ call : EncodeCall,
        (Client.SendMessage toyRand F64.exact toyFormat (fun _ => true) 0 alice clientWorld0
            "Hello world" "localhost" "3330").1.encodeCalls = clientWorld0.encodeCalls ++ [call] ∧
        (call.delays.length : Int) = pathLength ∧
        call.path.length = call.delays.length + 1 :=
  ⟨by decide, by decide,
    SendMessage_delays toyRand F64.exact toyFormat (fun _ => true) 0 alice clientWorld0
      "Hello world" "localhost" "3330" (by decide) (by decide)⟩

/-- C4 fails as stated: for the client Alice with three active mixes, `EncodeMessage`
receives 2 delays and a path of 3 entries. -/
theorem SendMessage_delays_shorter_than_path :
    (Client.SendMessage toyRand F64.exact toyFormat (fun _ => true) 0 alice clientWorld0
        "Hello world" "localhost" "3330").1.encodeCalls.map
          (fun call => (call.delays.length, call.path.length)) = [(2, 3)] ∧
    ¬ ∀ call ∈ (Client.SendMessage toyRand F64.exact toyFormat (fun _ => true) 0 alice
        clientWorld0 "Hello world" "localhost" "3330").1.encodeCalls,
          call.delays.length = call.path.length := by
  have h : (Client.SendMessage toyRand F64.exact toyFormat (fun _ => true) 0 alice clientWorld0
        "Hello world" "localhost" "3330").1.encodeCalls.map
          (fun call => (call.delays.length, call.path.length)) = [(2, 3)] := by rfl
  refine ⟨h, ?_⟩
  intro hall
  have hm : ∀ p ∈ (Client.SendMessage toyRand F64.exact toyFormat (fun _ => true) 0 alice
        clientWorld0 "Hello world" "localhost" "3330").1.encodeCalls.map
          (fun call => (call.delays.length, call.path.length)), p.1 = p.2 := by
    intro p hp
    obtain ⟨call, hc, rfl⟩ := List.mem_map.mp hp
    exact hall call hc
  rw [h] at hm
  have := hm (2, 3) (by simp)
  simp at this

/-! ## Delay sampling -/

theorem F64.lt_zero_cases (x : F64) (h : F64.lt F64.zero x = true) :
    x = F64.inf false ∨ ∃ b, x = F64.fin b ∧ 0 < b := by
  cases x with
  | nan => simp [F64.lt, F64.le, F64.zero] at h
  | inf neg =>
    cases neg with
    | false => exact Or.inl rfl
    | true => simp [F64.lt, F64.le, F64.zero] at h
  | negZero => simp [F64.lt, F64.le, F64.zero] at h
  | fin b =>
    simp only [F64.lt, F64.le, F64.zero, Bool.and_eq_true, decide_eq_true_eq,
      Bool.not_eq_true', decide_eq_false_iff_not, not_le] at h
    exact Or.inr ⟨b, rfl, h.2⟩

theorem F64.lt_zero_not_le (x : F64) (h : F64.lt F64.zero x = true) :
    F64.le x F64.zero = false := by
  simp only [F64.lt, Bool.and_eq_true, Bool.not_eq_true'] at h
  exact h.2

theorem F64.div_keeps_sign (rnd : ℚ → F64) (hr : ∀ q, 0 ≤ q → F64.NonNeg (rnd q)) (e x : F64)
    (he : F64.FiniteNonNeg e) (hx : F64.lt F64.zero x = true) :
    F64.NonNeg (F64.div rnd e x) := by
  cases e with
  | nan => exact he.elim
  | inf _ => exact he.elim
  | negZero => exact he.elim
  | fin a =>
    have ha : (0 : ℚ) ≤ a := he
    rcases F64.lt_zero_cases x hx with rfl | ⟨b, rfl, hb⟩
    · have hna : ¬ a < 0 := not_lt.mpr ha
      simp [F64.div, F64.signedZero, F64.NonNeg, hna]
    · have hb0 : b ≠ 0 := ne_of_gt hb
      have hnb : ¬ b < 0 := not_lt.mpr (le_of_lt hb)
      by_cases ha0 : a = 0
      · simp [F64.div, F64.signedZero, F64.NonNeg, hb0, ha0, hnb]
      · simp only [F64.div, hb0, ha0, if_false]
        exact hr _ (div_nonneg ha (le_of_lt hb))

/-- C5: `RandomExponential(expParam)` returns a non-nil error exactly when
`expParam <= 0`, and the value returned with it is `0.0`; when `expParam > 0` it returns
`e / expParam` and a nil error, `e` being the draw of `rand.ExpFloat64`, and this quotient
is not below zero (nor NaN) for every finite draw `e >= 0`. The rounding of the quotient is
any rounding that keeps the sign. -/
theorem RandomExponential_spec {ρ : Type} (R : MathRand ρ) (rnd : ℚ → F64) (w : World ρ)
    (expParam : F64) (hr : ∀ q, 0 ≤ q → F64.NonNeg (rnd q)) :
    ((RandomExponential R rnd w expParam).2.2 ≠ none ↔ F64.le expParam F64.zero = true) ∧
    (F64.le expParam F64.zero = true → (RandomExponential R rnd w expParam).2.1 = F64.zero) ∧
    (F64.lt F64.zero expParam = true →
      (RandomExponential R rnd w expParam).2
          = (F64.div rnd (R.ExpFloat64 (R.Seed w.now)).1 expParam, none) ∧
        (F64.FiniteNonNeg (R.ExpFloat64 (R.Seed w.now)).1 →
          F64.NonNeg (RandomExponential R rnd w expParam).2.1)) := by
  refine ⟨?_, ?_, ?_⟩
  · by_cases h : F64.le expParam F64.zero = true
    · simp [RandomExponential, h]
    · simp [RandomExponential, h]
  · intro h
    simp [RandomExponential, h]
  · intro h
    have hle := F64.lt_zero_not_le expParam h
    have hval : (RandomExponential R rnd w expParam).2
        = (F64.div rnd (R.ExpFloat64 (R.Seed w.now)).1 expParam, none) := by
      simp [RandomExponential, hle]
    refine ⟨hval, ?_⟩
    intro he
    rw [hval]
    exact F64.div_keeps_sign rnd hr _ _ he h

theorem RandomExponential_spec_witness :
    (∀ q : ℚ, 0 ≤ q → F64.NonNeg (F64.exact q)) ∧
      F64.lt F64.zero (F64.fin 2) = true ∧
      (RandomExponential toyRand F64.exact world0 (F64.fin 2)).2
          = (F64.div F64.exact (toyRand.ExpFloat64 (toyRand.Seed world0.now)).1 (F64.fin 2),
              none) ∧
      F64.NonNeg (RandomExponential toyRand F64.exact world0 (F64.fin 2)).2.1 ∧
      (RandomExponential toyRand F64.exact world0 (F64.fin (-1))).2.1 = F64.zero :=
  have hr : ∀ q : ℚ, 0 ≤ q → F64.NonNeg (F64.exact q) := fun _ hq => hq
  have hpos : F64.lt F64.zero (F64.fin 2) = true := by
    simp [F64.lt, F64.le, F64.zero]
  have hneg : F64.le (F64.fin (-1)) F64.zero = true := by
    simp [F64.le, F64.zero]
  have hdraw : F64.FiniteNonNeg (toyRand.ExpFloat64 (toyRand.Seed world0.now)).1 := by
    simp [toyRand, world0, F64.FiniteNonNeg]
  ⟨hr, hpos,
    ((RandomExponential_spec toyRand F64.exact world0 (F64.fin 2) hr).2.2 hpos).1,
    ((RandomExponential_spec toyRand F64.exact world0 (F64.fin 2) hr).2.2 hpos).2 hdraw,
    (RandomExponential_spec toyRand F64.exact world0 (F64.fin (-1)) hr).2.1 hneg⟩

theorem delayLoop_nonneg {ρ : Type} (R : MathRand ρ) (rnd : ℚ → F64) (rate : F64)
    (hr : ∀ q, 0 ≤ q → F64.NonNeg (rnd q)) (hrate : F64.lt F64.zero rate = true)
    (hdraw : ∀ g, F64.FiniteNonNeg (R.ExpFloat64 g).1) :
    ∀ (k : Nat) (g : ρ) (delays : List F64), (∀ d ∈ delays, F64.NonNeg d) →
      ∀ d ∈ (delayLoop R rnd rate k g delays).1, F64.NonNeg d := by
  intro k
  induction k with
  | zero => intro g delays h; exact h
  | succ k ih =>
    intro g delays h
    simp only [delayLoop]
    apply ih
    intro d hd
    rcases List.mem_append.mp hd with hd | hd
    · exact h d hd
    · simp only [List.mem_singleton] at hd
      rw [hd]
      exact F64.div_keeps_sign rnd hr _ _ (hdraw g) hrate

/-- The part of the sampler's contract the code keeps: for a rate above zero and every
length, `GenerateDelaySequence` returns `max length 0` delays, none of them below zero. -/
theorem GenerateDelaySequence_positive_rate {ρ : Type} (R : MathRand ρ) (rnd : ℚ → F64)
    (w : World ρ) (rate : F64) (length : Int)
    (hr : ∀ q, 0 ≤ q → F64.NonNeg (rnd q)) (hrate : F64.lt F64.zero rate = true)
    (hdraw : ∀ g, F64.FiniteNonNeg (R.ExpFloat64 g).1) :
    (Client.GenerateDelaySequence R rnd w rate length).2.length = length.toNat ∧
      ∀ d ∈ (Client.GenerateDelaySequence R rnd w rate length).2, F64.NonNeg d := by
  refine ⟨GenerateDelaySequence_length R rnd w rate length, ?_⟩
  simp only [Client.GenerateDelaySequence]
  exact delayLoop_nonneg R rnd rate hr hrate hdraw _ _ [] (by simp)

/-- C6, at the failing inputs: called with the rate `0.0` and with the rate `-1.0`,
`GenerateDelaySequence` does not fail (it has no error result and does not test the rate):
it returns the one-element delay vectors `[+Inf]` and `[-1]`. `RandomExponential`, which
computes the same quotient, rejects both rates. -/
theorem GenerateDelaySequence_rate_unchecked :
    (Client.GenerateDelaySequence toyRand F64.exact world0 (F64.fin 0) 1).2 = [F64.inf false] ∧
    (Client.GenerateDelaySequence toyRand F64.exact world0 (F64.fin (-1)) 1).2
      = [F64.fin (-1)] ∧
    ¬ F64.NonNeg (F64.fin (-1)) ∧
    (RandomExponential toyRand F64.exact world0 (F64.fin 0)).2.2 ≠ none ∧
    (RandomExponential toyRand F64.exact world0 (F64.fin (-1))).2.2 ≠ none := by
  refine ⟨?_, ?_, ?_, ?_, ?_⟩
  · simp [Client.GenerateDelaySequence, delayLoop, toyRand, world0, F64.div]
  · simp [Client.GenerateDelaySequence, delayLoop, toyRand, world0, F64.div, F64.exact]
  · simp [F64.NonNeg]
  · simp [RandomExponential, F64.le, F64.zero]
  · simp [RandomExponential, F64.le, F64.zero]

/-! ## The size of a sample -/

/-- C7, as the code has it: for every non-empty slice, every length with
`0 <= length <= len(slice)` and whatever permutation `rand.Perm` yields, `RandomSample`
returns a nil error and a slice of exactly `length` elements; for the empty slice (where
only `length = 0` is in range) it returns a nil sample and the error of `Permute`. -/
theorem RandomSample_length {ρ : Type} (R : MathRand ρ) (w : World ρ)
    (slice : List MixConfig) (length : Int)
    (hperm : (R.Perm (R.Seed w.now) slice.length).1.Perm (List.range slice.length))
    (h0 : 0 ≤ length) (hle : length ≤ slice.length) :
    (slice ≠ [] → ∃ r, (RandomSample R w slice length).2 = .ret (some r, none) ∧
      (r.length : Int) = length) ∧
    (slice = [] → RandomSample R w slice length =
      (w, .ret (none, some " cannot permute an empty list of mixes"))) := by
  constructor
  · intro hne
    have hne' : slice.length ≠ 0 := by
      intro h
      exact hne (List.length_eq_zero.mp h)
    obtain ⟨res, hP, hl, _⟩ := Permute_of_perm R w slice hne' hperm
    have hb : ¬ (length < 0 ∨ (res.length : Int) < length) := by rw [hl]; omega
    refine ⟨res.take length.toNat, ?_, ?_⟩
    · rw [RandomSample_snd R w slice length res hle hP, if_neg hb]
    · rw [List.length_take, hl]
      omega
  · intro he
    subst he
    have hl : ¬ (((0 : Nat) : Int) < length) := by
      simp only [List.length_nil] at hle
      omega
    simp only [RandomSample, Permute, List.length_nil, if_true, if_neg hl]

theorem RandomSample_length_witness :
    ((toyRand.Perm (toyRand.Seed world0.now) [mixA, mixB, mixC].length).1.Perm
        (List.range [mixA, mixB, mixC].length)) ∧
      ((0 : Int) ≤ 3) ∧ ((3 : Int) ≤ [mixA, mixB, mixC].length) ∧
      (RandomSample toyRand world0 [mixA, mixB, mixC] 3).2
        = .ret (some [mixC, mixB, mixA], none) ∧
      ([mixA, mixB, mixC] ≠ [] →
        ∃ r, (RandomSample toyRand world0 [mixA, mixB, mixC] 3).2 = .ret (some r, none) ∧
          (r.length : Int) = 3) :=
  ⟨by decide, by decide, by decide, by decide,
    (RandomSample_length toyRand world0 [mixA, mixB, mixC] 3 (by decide) (by decide)
      (by decide)).1⟩

/-- C7 fails as stated: the empty slice and `length = 0` satisfy
`0 <= length <= len(slice)`, and `RandomSample` returns a nil sample with the error
" cannot permute an empty list of mixes". -/
theorem RandomSample_empty_slice_fails :
    ((0 : Int) ≤ 0 ∧ (0 : Int) ≤ ([] : List MixConfig).length) ∧
      RandomSample toyRand world0 [] 0 =
        (world0, .ret (none, some " cannot permute an empty list of mixes")) ∧
      ¬ ∃ r, (RandomSample toyRand world0 [] 0).2 = .ret (some r, none) := by
  refine ⟨by decide, rfl, ?_⟩
  rintro ⟨r, hr⟩
  have h : (RandomSample toyRand world0 [] 0).2
      = .ret (none, some " cannot permute an empty list of mixes") := rfl
  rw [h] at hr
  cases hr

/-! ## The benchmark client -/

/-- The loop of `sendMessages` when no call of `SendMessage` fails and the indices
`i .. i + k - 1` are in bounds. -/
theorem sendLoop_ok (E : BenchEnv) (hsend : ∀ k m, E.SendMessage k m = none)
    (interval : Duration) :
    ∀ (k i : Nat) (bc : BenchClient) (w : BenchWorld), i + k ≤ bc.sentMessages.length →
      ∃ sm w1, sendLoop E interval k i bc w = (({ bc with sentMessages := sm }, w1), .ret ()) ∧
        sm.length = bc.sentMessages.length ∧
        w1.sent = w.sent ++ (List.range' i k).map (fun j => payloadPrefix ++ toString j) ∧
        (∀ j, i ≤ j → j < i + k →
          ∃ t, sm[j]? = some ⟨payloadPrefix ++ toString j, t⟩) ∧
        (∀ j, j < i → sm[j]? = bc.sentMessages[j]?) ∧
        (∀ j, i + k ≤ j → sm[j]? = bc.sentMessages[j]?) ∧
        w1.file = w.file ∧ w1.report = w.report := by
  intro k
  induction k with
  | zero =>
    intro i bc w _
    refine ⟨bc.sentMessages, w, rfl, rfl, by simp, ?_, fun _ _ => rfl, fun _ _ => rfl,
      rfl, rfl⟩
    intro j h1 h2
    omega
  | succ k ih =>
    intro i bc w hlen
    have hi : i < bc.sentMessages.length := by omega
    obtain ⟨sm, w1, hrun, hl, hsent, hnew, hlow, hhigh, hfile, hrep⟩ :=
      ih (i + 1)
        { bc with sentMessages := (bc.sentMessages.set i
            (timestampedMessage.mk (payloadPrefix ++ toString i)
              (w.now + E.sendDur w.sent.length))) }
        { w with sent := w.sent ++ [payloadPrefix ++ toString i],
                 now := w.now + E.sendDur w.sent.length
                   + E.sleepDur w.sleeps interval,
                 sleeps := w.sleeps + 1 }
        (by simp; omega)
    refine ⟨sm, w1, ?_, ?_, ?_, ?_, ?_, ?_, hfile, hrep⟩
    · simp only [sendLoop, hsend, hi, if_true]
      exact hrun
    · simpa using hl
    · rw [hsent]
      simp [List.range'_succ]
    · intro j h1 h2
      by_cases hj : j = i
      · subst hj
        refine ⟨w.now + E.sendDur w.sent.length, ?_⟩
        rw [hlow j (by omega)]
        simp [hi]
      · exact hnew j (by omega) (by omega)
    · intro j hj
      rw [hlow j (by omega)]
      simp only
      rw [List.getElem?_set_ne (by omega)]
    · intro j hj
      rw [hhigh j (by omega)]
      simp only
      rw [List.getElem?_set_ne (by omega)]

/-- The lines `createSummaryDoc` writes in its loop: one row per message, in order. -/
theorem foldl_summaryStep_lines (ms : List timestampedMessage) :
    ∀ (acc : Time × Time × List SummaryLine),
      (ms.foldl summaryStep acc).2.2
        = acc.2.2 ++ ms.map (fun m => SummaryLine.row m.timestamp m.content) := by
  induction ms with
  | nil => intro acc; simp
  | cons m ms ih =>
    intro acc
    rw [List.foldl_cons, ih]
    simp [summaryStep]

/-- The file `createSummaryDoc` leaves when `os.Create` succeeds, whether the call returns
or faults on `sentMessages[0]`. -/
theorem createSummaryDoc_file (E : BenchEnv) (bc : BenchClient) (w : BenchWorld)
    (hc : E.Create = none) :
    (bc.createSummaryDoc E w).1.file
      = some (SummaryLine.header ::
          bc.sentMessages.map (fun m => SummaryLine.row m.timestamp m.content)) := by
  unfold BenchClient.createSummaryDoc
  rw [hc]
  simp only
  cases hsm : bc.sentMessages with
  | nil => simp
  | cons m ms =>
    simp only [List.getElem?_cons_zero]
    rw [foldl_summaryStep_lines (m :: ms) (m.timestamp, m.timestamp, [SummaryLine.header])]
    rfl

/-- With the file created and at least one entry, `createSummaryDoc` returns nil. -/
theorem createSummaryDoc_ret (E : BenchEnv) (bc : BenchClient) (w : BenchWorld)
    (hc : E.Create = none) (hne : bc.sentMessages ≠ []) :
    (bc.createSummaryDoc E w).2 = .ret none := by
  unfold BenchClient.createSummaryDoc
  rw [hc]
  cases hsm : bc.sentMessages with
  | nil => exact absurd hsm hne
  | cons m ms => simp

/-- The client `NewBenchClient` makes. -/
theorem NewBenchClient_eq (n : Nat) (interval : Duration) (pregen : Bool) (bc : BenchClient)
    (hnew : NewBenchClient n interval pregen = .ret (some bc, none)) :
    bc = { numberMessages := n, interval := interval,
           sentMessages := List.replicate n default, pregen := pregen,
           pregeneratedPacket := none } := by
  have hn : ¬ ((n : Int) < 0) := by omega
  simp only [NewBenchClient, if_neg hn, Int.toNat_ofNat] at hnew
  injection hnew with h
  injection h with h1 _
  injection h1 with h2
  exact h2.symm

/-- The contents recorded by a run of the loop from index 0 over the whole slice. -/
theorem contents_of_entries (sm : List timestampedMessage) (n : Nat) (hl : sm.length = n)
    (h : ∀ j, 0 ≤ j → j < 0 + n →
      ∃ t, sm[j]? = some ⟨payloadPrefix ++ toString j, t⟩) :
    sm.map (fun m => m.content) = (List.range n).map (fun i => payloadPrefix ++ toString i) := by
  apply List.ext_getElem?
  intro j
  by_cases hj : j < n
  · obtain ⟨t, ht⟩ := h j (Nat.zero_le _) (by omega)
    simp [List.getElem?_map, ht, List.getElem?_range hj]
  · have h1 : (sm.map (fun m => m.content))[j]? = none :=
      List.getElem?_eq_none (by simp; omega)
    have h2 : ((List.range n).map (fun i => payloadPrefix ++ toString i))[j]? = none :=
      List.getElem?_eq_none (by simp; omega)
    rw [h1, h2]

/-- C8: for every `n >= 0`, a `BenchClient` made by `NewBenchClient` with
`numberMessages = n` and `pregen = false`, all of whose `SendMessage` calls succeed, ends
`sendMessages(n, interval)` normally with exactly `n` recorded entries, entry `i` having the
content `"testMessage"` followed by the decimal form of `i`; the messages handed to
`SendMessage` are these `n` contents, each once and in index order. When the summary file
can be created, `createSummaryDoc` then writes the header and one row per recorded entry,
in order (for `n = 0` that is the header alone, after which the call faults on
`sentMessages[0]`; for `n >= 1` it returns nil). -/
theorem sendMessages_records (E : BenchEnv) (n : Nat) (interval : Duration)
    (bc : BenchClient) (w : BenchWorld)
    (hnew : NewBenchClient n interval false = .ret (some bc, none))
    (hsend : ∀ k m, E.SendMessage k m = none) :
    ∃ bc1 w1, BenchClient.sendMessages E bc w n interval = ((bc1, w1), .ret ()) ∧
      bc1.sentMessages.length = n ∧
      bc1.sentMessages.map (fun m => m.content)
        = (List.range n).map (fun i => payloadPrefix ++ toString i) ∧
      w1.sent = w.sent ++ (List.range n).map (fun i => payloadPrefix ++ toString i) ∧
      (E.Create = none →
        (bc1.createSummaryDoc E w1).1.file
          = some (SummaryLine.header ::
              bc1.sentMessages.map (fun m => SummaryLine.row m.timestamp m.content)) ∧
        (1 ≤ n → (bc1.createSummaryDoc E w1).2 = .ret none)) := by
  have hbc := NewBenchClient_eq n interval false bc hnew
  have hlen : bc.sentMessages.length = n := by rw [hbc]; simp
  have hpre : bc.pregen = false := by rw [hbc]
  obtain ⟨sm, w1, hrun, hl, hsent, hnewe, _, _, _, _⟩ :=
    sendLoop_ok E hsend interval n 0 bc w (by omega)
  refine ⟨{ bc with sentMessages := sm }, w1, ?_, ?_, ?_, ?_, ?_⟩
  · have hs : BenchClient.sendMessages E bc w n interval = sendLoop E interval n 0 bc w := by
      simp [BenchClient.sendMessages, hpre]
    rw [hs]
    exact hrun
  · simp only
    omega
  · exact contents_of_entries sm n (by omega) hnewe
  · rw [hsent, List.range_eq_range']
  · intro hc
    refine ⟨createSummaryDoc_file E _ w1 hc, ?_⟩
    intro hn
    apply createSummaryDoc_ret E _ w1 hc
    intro he
    simp only at he
    rw [he] at hl
    simp at hl
    omega

theorem sendMessages_records_witness :
    (NewBenchClient 5 100000000 false
        = .ret (some ⟨5, 100000000, List.replicate 5 default, false, none⟩, none)) ∧
      (∀ k m, benchEnvOk.SendMessage k m = none) ∧
      ((BenchClient.sendMessages benchEnvOk ⟨5, 100000000, List.replicate 5 default, false, none⟩
          (BenchWorld.init 0) 5 100000000).1.1.sentMessages.map (fun m => m.content)
        = ["testMessage0", "testMessage1", "testMessage2", "testMessage3", "testMessage4"]) ∧
      ∃ bc1 w1,
        BenchClient.sendMessages benchEnvOk ⟨5, 100000000, List.replicate 5 default, false, none⟩
            (BenchWorld.init 0) 5 100000000 = ((bc1, w1), .ret ()) ∧
        bc1.sentMessages.length = 5 ∧
        bc1.sentMessages.map (fun m => m.content)
          = (List.range 5).map (fun i => payloadPrefix ++ toString i) ∧
        w1.sent = (BenchWorld.init 0).sent
          ++ (List.range 5).map (fun i => payloadPrefix ++ toString i) ∧
        (benchEnvOk.Create = none →
          (bc1.createSummaryDoc benchEnvOk w1).1.file
            = some (SummaryLine.header ::
                bc1.sentMessages.map (fun m => SummaryLine.row m.timestamp m.content)) ∧
          (1 ≤ 5 → (bc1.createSummaryDoc benchEnvOk w1).2 = .ret none)) :=
  ⟨by decide, fun _ _ => rfl, by decide,
    sendMessages_records benchEnvOk 5 100000000
      ⟨5, 100000000, List.replicate 5 default, false, none⟩ (BenchWorld.init 0)
      (by decide) (fun _ _ => rfl)⟩

/-- The timestamps the loop of `sendMessages` records, over a clock that never goes
backwards and on which `Sleep(interval)` takes at least `interval`: each is taken no
earlier than the loop starts, and entry `b` is taken at least `(b - a) * interval` after
entry `a`, for `a <= b`. -/
theorem sendLoop_times (E : BenchEnv) (hsend : ∀ k m, E.SendMessage k m = none)
    (interval : Duration) (hsd : ∀ k, 0 ≤ E.sendDur k) (hsl0 : ∀ k d, 0 ≤ E.sleepDur k d)
    (hsl : ∀ k, interval ≤ E.sleepDur k interval) :
    ∀ (k i : Nat) (bc : BenchClient) (w : BenchWorld), i + k ≤ bc.sentMessages.length →
      (∀ b, i ≤ b → b < i + k → ∀ m,
        (sendLoop E interval k i bc w).1.1.sentMessages[b]? = some m →
          w.now ≤ m.timestamp ∧ w.now + ((b : Int) - i) * interval ≤ m.timestamp) ∧
      (∀ a b, i ≤ a → a ≤ b → b < i + k → ∀ m m1,
        (sendLoop E interval k i bc w).1.1.sentMessages[a]? = some m →
        (sendLoop E interval k i bc w).1.1.sentMessages[b]? = some m1 →
          m.timestamp ≤ m1.timestamp ∧
            m.timestamp + ((b : Int) - a) * interval ≤ m1.timestamp) := by
  intro k
  induction k with
  | zero =>
    intro i bc w _
    constructor
    · intro b h1 h2; omega
    · intro a b h1 h2 h3; omega
  | succ k ih =>
    intro i bc w hlen
    have hi : i < bc.sentMessages.length := by omega
    have hstep : sendLoop E interval (k + 1) i bc w
        = sendLoop E interval k (i + 1)
            { bc with sentMessages := (bc.sentMessages.set i
                (timestampedMessage.mk (payloadPrefix ++ toString i)
                  (w.now + E.sendDur w.sent.length))) }
            { w with sent := w.sent ++ [payloadPrefix ++ toString i],
                     now := w.now + E.sendDur w.sent.length
                       + E.sleepDur w.sleeps interval,
                     sleeps := w.sleeps + 1 } := by
      simp only [sendLoop, hsend, hi, if_true]
    rw [hstep]
    obtain ⟨sm, w1, hrun, _, _, _, hlow, _, _, _⟩ :=
      sendLoop_ok E hsend interval k (i + 1)
        { bc with sentMessages := (bc.sentMessages.set i
            (timestampedMessage.mk (payloadPrefix ++ toString i)
              (w.now + E.sendDur w.sent.length))) }
        { w with sent := w.sent ++ [payloadPrefix ++ toString i],
                 now := w.now + E.sendDur w.sent.length
                   + E.sleepDur w.sleeps interval,
                 sleeps := w.sleeps + 1 }
        (by simp; omega)
    obtain ⟨ih1, ih2⟩ := ih (i + 1)
        { bc with sentMessages := (bc.sentMessages.set i
            (timestampedMessage.mk (payloadPrefix ++ toString i)
              (w.now + E.sendDur w.sent.length))) }
        { w with sent := w.sent ++ [payloadPrefix ++ toString i],
                 now := w.now + E.sendDur w.sent.length
                   + E.sleepDur w.sleeps interval,
                 sleeps := w.sleeps + 1 }
        (by simp; omega)
    rw [hrun] at ih1 ih2 ⊢
    simp only at ih1 ih2 ⊢
    have hsmi : sm[i]? = some ⟨payloadPrefix ++ toString i, w.now + E.sendDur w.sent.length⟩ := by
      rw [hlow i (by omega)]
      simp [hi]
    have h1 := hsd w.sent.length
    have h2 := hsl0 w.sleeps interval
    have h3 := hsl w.sleeps
    have first : ∀ b, i ≤ b → b < i + (k + 1) → ∀ m, sm[b]? = some m →
        w.now + E.sendDur w.sent.length ≤ m.timestamp ∧
        w.now + E.sendDur w.sent.length + ((b : Int) - i) * interval ≤ m.timestamp := by
      intro b hb1 hb2 m hm
      by_cases hbi : b = i
      · subst hbi
        rw [hsmi] at hm
        injection hm with hm
        subst hm
        simp
      · obtain ⟨g1, g2⟩ := ih1 b (by omega) (by omega) m hm
        have e : ((b : Int) - i) * interval
            = interval + ((b : Int) - ((i + 1 : Nat) : Int)) * interval := by
          push_cast
          ring
        constructor
        · linarith
        · rw [e]
          linarith
    constructor
    · intro b hb1 hb2 m hm
      obtain ⟨g1, g2⟩ := first b hb1 hb2 m hm
      constructor <;> linarith
    · intro a b ha hab hb m m1 hm hm1
      by_cases hai : a = i
      · subst hai
        rw [hsmi] at hm
        injection hm with hm
        subst hm
        exact first b hab hb m1 hm1
      · exact ih2 a b (by omega) hab (by omega) m m1 hm hm1

theorem summaryStep_earliest (acc : Time × Time × List SummaryLine) (m : timestampedMessage) :
    (summaryStep acc m).1 ≤ acc.1 ∧ (summaryStep acc m).1 ≤ m.timestamp ∧
      ((summaryStep acc m).1 = acc.1 ∨ (summaryStep acc m).1 = m.timestamp) := by
  by_cases h : m.timestamp < acc.1
  · have e : (summaryStep acc m).1 = m.timestamp := by simp [summaryStep, Time.Before, h]
    rw [e]
    exact ⟨le_of_lt h, le_refl _, Or.inr rfl⟩
  · have e : (summaryStep acc m).1 = acc.1 := by simp [summaryStep, Time.Before, h]
    rw [e]
    exact ⟨le_refl _, not_lt.mp h, Or.inl rfl⟩

theorem summaryStep_latest (acc : Time × Time × List SummaryLine) (m : timestampedMessage) :
    acc.2.1 ≤ (summaryStep acc m).2.1 ∧ m.timestamp ≤ (summaryStep acc m).2.1 ∧
      ((summaryStep acc m).2.1 = acc.2.1 ∨ (summaryStep acc m).2.1 = m.timestamp) := by
  by_cases h : acc.2.1 < m.timestamp
  · have e : (summaryStep acc m).2.1 = m.timestamp := by simp [summaryStep, Time.After, h]
    rw [e]
    exact ⟨le_of_lt h, le_refl _, Or.inr rfl⟩
  · have e : (summaryStep acc m).2.1 = acc.2.1 := by simp [summaryStep, Time.After, h]
    rw [e]
    exact ⟨le_refl _, not_lt.mp h, Or.inl rfl⟩

/-- The earliest and latest timestamps the loop of `createSummaryDoc` computes are, each,
the starting value or the timestamp of a message, and bound every message's timestamp. -/
theorem foldl_summaryStep_bounds (ms : List timestampedMessage) :
    ∀ (acc : Time × Time × List SummaryLine),
      ((ms.foldl summaryStep acc).1 ≤ acc.1 ∧
        (∀ m ∈ ms, (ms.foldl summaryStep acc).1 ≤ m.timestamp) ∧
        ((ms.foldl summaryStep acc).1 = acc.1 ∨
          ∃ m ∈ ms, (ms.foldl summaryStep acc).1 = m.timestamp)) ∧
      (acc.2.1 ≤ (ms.foldl summaryStep acc).2.1 ∧
        (∀ m ∈ ms, m.timestamp ≤ (ms.foldl summaryStep acc).2.1) ∧
        ((ms.foldl summaryStep acc).2.1 = acc.2.1 ∨
          ∃ m ∈ ms, (ms.foldl summaryStep acc).2.1 = m.timestamp)) := by
  induction ms with
  | nil => intro acc; simp
  | cons m ms ih =>
    intro acc
    rw [List.foldl_cons]
    obtain ⟨⟨e1, e2, e3⟩, ⟨l1, l2, l3⟩⟩ := ih (summaryStep acc m)
    obtain ⟨he1, he2, he3⟩ := summaryStep_earliest acc m
    obtain ⟨hl1, hl2, hl3⟩ := summaryStep_latest acc m
    refine ⟨⟨le_trans e1 he1, ?_, ?_⟩, ⟨le_trans hl1 l1, ?_, ?_⟩⟩
    · intro x hx
      rcases List.mem_cons.mp hx with rfl | hx
      · exact le_trans e1 he2
      · exact e2 x hx
    · rcases e3 with h | ⟨x, hx, h⟩
      · rcases he3 with h1 | h1
        · exact Or.inl (h.trans h1)
        · exact Or.inr ⟨m, List.mem_cons_self _ _, h.trans h1⟩
      · exact Or.inr ⟨x, List.mem_cons_of_mem _ hx, h⟩
    · intro x hx
      rcases List.mem_cons.mp hx with rfl | hx
      · exact le_trans hl2 l1
      · exact l2 x hx
    · rcases l3 with h | ⟨x, hx, h⟩
      · rcases hl3 with h1 | h1
        · exact Or.inl (h.trans h1)
        · exact Or.inr ⟨m, List.mem_cons_self _ _, h.trans h1⟩
      · exact Or.inr ⟨x, List.mem_cons_of_mem _ hx, h⟩

/-- What `createSummaryDoc` reports when the file is created and there is a first entry. -/
theorem createSummaryDoc_report (E : BenchEnv) (bc : BenchClient) (w : BenchWorld)
    (hc : E.Create = none) (m0 : timestampedMessage) (h0 : bc.sentMessages[0]? = some m0) :
    (bc.createSummaryDoc E w).2 = .ret none ∧
    (bc.createSummaryDoc E w).1.report
      = some ⟨(bc.sentMessages.foldl summaryStep
                (m0.timestamp, m0.timestamp, [SummaryLine.header])).1,
              (bc.sentMessages.foldl summaryStep
                (m0.timestamp, m0.timestamp, [SummaryLine.header])).2.1,
              Time.Sub
                (bc.sentMessages.foldl summaryStep
                  (m0.timestamp, m0.timestamp, [SummaryLine.header])).2.1
                (bc.sentMessages.foldl summaryStep
                  (m0.timestamp, m0.timestamp, [SummaryLine.header])).1⟩ := by
  unfold BenchClient.createSummaryDoc
  rw [hc]
  simp only
  rw [h0]
  exact ⟨rfl, rfl⟩

/-- C9: over a clock that never goes backwards (no call of `SendMessage` or `Sleep` takes
negative time) and on which `Sleep(interval)` takes at least `interval`, for `n >= 1`
messages all sent successfully and a summary file that can be created: the timestamps
recorded by `sendMessages(n, interval)` are non-decreasing in index order, the earliest and
latest timestamps `createSummaryDoc` reports are the minimum and the maximum of the
recorded timestamps, and the reported span `latest - earliest` is at least
`(n - 1) * interval`. -/
theorem sendMessages_timestamps (E : BenchEnv) (n : Nat) (interval : Duration)
    (bc : BenchClient) (w : BenchWorld)
    (hnew : NewBenchClient n interval false = .ret (some bc, none))
    (hn : 1 ≤ n) (hsend : ∀ k m, E.SendMessage k m = none) (hcreate : E.Create = none)
    (hsd : ∀ k, 0 ≤ E.sendDur k) (hsl0 : ∀ k d, 0 ≤ E.sleepDur k d)
    (hsl : ∀ k, interval ≤ E.sleepDur k interval) :
    ∃ bc1 w1 rep, BenchClient.sendMessages E bc w n interval = ((bc1, w1), .ret ()) ∧
      (bc1.createSummaryDoc E w1).2 = .ret none ∧
      (bc1.createSummaryDoc E w1).1.report = some rep ∧
      (bc1.sentMessages.map (fun m => m.timestamp)).Sorted (fun a b => a ≤ b) ∧
      rep.earliest ∈ bc1.sentMessages.map (fun m => m.timestamp) ∧
      (∀ t ∈ bc1.sentMessages.map (fun m => m.timestamp), rep.earliest ≤ t) ∧
      rep.latest ∈ bc1.sentMessages.map (fun m => m.timestamp) ∧
      (∀ t ∈ bc1.sentMessages.map (fun m => m.timestamp), t ≤ rep.latest) ∧
      rep.timedelta = rep.latest - rep.earliest ∧
      ((n : Int) - 1) * interval ≤ rep.timedelta := by
  have hbc := NewBenchClient_eq n interval false bc hnew
  have hlen : bc.sentMessages.length = n := by rw [hbc]; simp
  have hpre : bc.pregen = false := by rw [hbc]
  obtain ⟨sm, w1, hrun, hl, _, _, _, _, _, _⟩ :=
    sendLoop_ok E hsend interval n 0 bc w (by omega)
  obtain ⟨_, ht⟩ := sendLoop_times E hsend interval hsd hsl0 hsl n 0 bc w (by omega)
  rw [hrun] at ht
  simp only at ht
  have hsl : sm.length = n := by omega
  have h0lt : 0 < sm.length := by omega
  have hlast : n - 1 < sm.length := by omega
  have h0 : sm[0]? = some sm[0] := List.getElem?_eq_getElem h0lt
  obtain ⟨hret, hrep⟩ :=
    createSummaryDoc_report E { bc with sentMessages := sm } w1 hcreate sm[0] h0
  obtain ⟨⟨e1, e2, e3⟩, ⟨l1, l2, l3⟩⟩ :=
    foldl_summaryStep_bounds sm (sm[0].timestamp, sm[0].timestamp, [SummaryLine.header])
  have hs : BenchClient.sendMessages E bc w n interval = sendLoop E interval n 0 bc w := by
    simp [BenchClient.sendMessages, hpre]
  refine ⟨{ bc with sentMessages := sm }, w1, _, by rw [hs]; exact hrun, hret, hrep,
    ?_, ?_, ?_, ?_, ?_, rfl, ?_⟩
  · show List.Pairwise _ _
    rw [List.pairwise_iff_getElem]
    intro a b ha hb hab
    simp only [List.length_map] at ha hb
    simp only [List.getElem_map]
    exact (ht a b (Nat.zero_le _) (le_of_lt hab) (by omega) sm[a] sm[b]
      (List.getElem?_eq_getElem ha) (List.getElem?_eq_getElem hb)).1
  · simp only [List.mem_map]
    rcases e3 with h | ⟨m, hm, h⟩
    · exact ⟨sm[0], List.getElem_mem _, h.symm⟩
    · exact ⟨m, hm, h.symm⟩
  · intro t htm
    obtain ⟨m, hm, rfl⟩ := List.mem_map.mp htm
    exact e2 m hm
  · simp only [List.mem_map]
    rcases l3 with h | ⟨m, hm, h⟩
    · exact ⟨sm[0], List.getElem_mem _, h.symm⟩
    · exact ⟨m, hm, h.symm⟩
  · intro t htm
    obtain ⟨m, hm, rfl⟩ := List.mem_map.mp htm
    exact l2 m hm
  · have hspan := (ht 0 (n - 1) (Nat.le_refl _) (Nat.zero_le _) (by omega) sm[0] sm[n - 1]
      h0 (List.getElem?_eq_getElem hlast)).2
    have hlo := e2 sm[0] (List.getElem_mem _)
    have hhi := l2 sm[n - 1] (List.getElem_mem _)
    have hc : (((n - 1 : Nat) : Int) - ((0 : Nat) : Int)) = (n : Int) - 1 := by
      push_cast [Nat.cast_sub hn]
      ring
    rw [hc] at hspan
    simp only [Time.Sub]
    linarith

theorem sendMessages_timestamps_witness :
    (NewBenchClient 5 100000000 false
        = .ret (some ⟨5, 100000000, List.replicate 5 default, false, none⟩, none)) ∧
      (1 ≤ 5) ∧ (∀ k m, benchEnvOk.SendMessage k m = none) ∧ benchEnvOk.Create = none ∧
      (∀ k, 0 ≤ benchEnvOk.sendDur k) ∧ (∀ k d, 0 ≤ benchEnvOk.sleepDur k d) ∧
      (∀ k, (100000000 : Duration) ≤ benchEnvOk.sleepDur k 100000000) ∧
      ((BenchClient.sendMessages benchEnvOk ⟨5, 100000000, List.replicate 5 default, false, none⟩
          (BenchWorld.init 0) 5 100000000).1.1.sentMessages.map (fun m => m.timestamp)
        = [1000000, 103000000, 205000000, 307000000, 409000000]) ∧
      ∃ bc1 w1 rep,
        BenchClient.sendMessages benchEnvOk ⟨5, 100000000, List.replicate 5 default, false, none⟩
            (BenchWorld.init 0) 5 100000000 = ((bc1, w1), .ret ()) ∧
        (bc1.createSummaryDoc benchEnvOk w1).2 = .ret none ∧
        (bc1.createSummaryDoc benchEnvOk w1).1.report = some rep ∧
        (bc1.sentMessages.map (fun m => m.timestamp)).Sorted (fun a b => a ≤ b) ∧
        rep.earliest ∈ bc1.sentMessages.map (fun m => m.timestamp) ∧
        (∀ t ∈ bc1.sentMessages.map (fun m => m.timestamp), rep.earliest ≤ t) ∧
        rep.latest ∈ bc1.sentMessages.map (fun m => m.timestamp) ∧
        (∀ t ∈ bc1.sentMessages.map (fun m => m.timestamp), t ≤ rep.latest) ∧
        rep.timedelta = rep.latest - rep.earliest ∧
        (((5 : Nat) : Int) - 1) * 100000000 ≤ rep.timedelta :=
  have hsl0 : ∀ (k : Nat) (d : Duration), 0 ≤ benchEnvOk.sleepDur k d := by
    intro k d
    show (0 : Int) ≤ max d 0 + 1000000
    have := le_max_right d (0 : Int)
    omega
  have hsd : ∀ k : Nat, 0 ≤ benchEnvOk.sendDur k := by
    intro k
    show (0 : Int) ≤ 1000000
    decide
  have hsl : ∀ k : Nat, (100000000 : Duration) ≤ benchEnvOk.sleepDur k 100000000 := by
    intro k
    show (100000000 : Int) ≤ max 100000000 0 + 1000000
    decide
  ⟨by decide, by decide, fun _ _ => rfl, rfl, hsd, hsl0, hsl, by decide,
    sendMessages_timestamps benchEnvOk 5 100000000
      ⟨5, 100000000, List.replicate 5 default, false, none⟩ (BenchWorld.init 0)
      (by decide) (by decide) (fun _ _ => rfl) rfl hsd hsl0 hsl⟩

/-- The loop of `sendMessages` when the first `d` calls of `SendMessage` succeed and the
next one returns `err`: the loop faults with `err`, the entries from index `i + d` on are
as they were, and the messages handed to `SendMessage` are those of indices `i .. i + d`. -/
theorem sendLoop_fail (E : BenchEnv) (interval : Duration) (err : String) :
    ∀ (d k i : Nat) (bc : BenchClient) (w : BenchWorld), d < k →
      i + k ≤ bc.sentMessages.length →
      (∀ j, j < d → E.SendMessage (w.sent.length + j) (payloadPrefix ++ toString (i + j)) = none) →
      E.SendMessage (w.sent.length + d) (payloadPrefix ++ toString (i + d)) = some err →
      ∃ sm w1, sendLoop E interval k i bc w = (({ bc with sentMessages := sm }, w1), .fault err) ∧
        (∀ j, i + d ≤ j → sm[j]? = bc.sentMessages[j]?) ∧
        w1.sent = w.sent ++ (List.range' i (d + 1)).map (fun j => payloadPrefix ++ toString j) ∧
        w1.file = w.file ∧ w1.report = w.report := by
  intro d
  induction d with
  | zero =>
    intro k i bc w hk _ _ hfail
    obtain ⟨k, rfl⟩ : ∃ k1, k = k1 + 1 := ⟨k - 1, by omega⟩
    refine ⟨bc.sentMessages,
      { w with sent := w.sent ++ [payloadPrefix ++ toString i],
               now := w.now + E.sendDur w.sent.length },
      ?_, fun _ _ => rfl, ?_, ?_, ?_⟩
    · simp only [sendLoop]
      rw [show w.sent.length = w.sent.length + 0 from rfl, show i = i + 0 from rfl, hfail]
    · simp [List.range'_succ]
    · rfl
    · rfl
  | succ d ih =>
    intro k i bc w hk hlen hok hfail
    obtain ⟨k, rfl⟩ : ∃ k1, k = k1 + 1 := ⟨k - 1, by omega⟩
    have hi : i < bc.sentMessages.length := by omega
    have h0 : E.SendMessage w.sent.length (payloadPrefix ++ toString i) = none :=
      hok 0 (by omega)
    obtain ⟨sm, w1, hrun, hkeep, hsent, hfile, hrep⟩ :=
      ih k (i + 1)
        { bc with sentMessages := (bc.sentMessages.set i
            (timestampedMessage.mk (payloadPrefix ++ toString i)
              (w.now + E.sendDur w.sent.length))) }
        { w with sent := w.sent ++ [payloadPrefix ++ toString i],
                 now := w.now + E.sendDur w.sent.length
                   + E.sleepDur w.sleeps interval,
                 sleeps := w.sleeps + 1 }
        (by omega) (by simp; omega)
        (by
          intro j hj
          have := hok (j + 1) (by omega)
          simp only [List.length_append, List.length_singleton]
          rw [show w.sent.length + 1 + j = w.sent.length + (j + 1) by omega,
            show i + 1 + j = i + (j + 1) by omega]
          exact this)
        (by
          simp only [List.length_append, List.length_singleton]
          rw [show w.sent.length + 1 + d = w.sent.length + (d + 1) by omega,
            show i + 1 + d = i + (d + 1) by omega]
          exact hfail)
    refine ⟨sm, w1, ?_, ?_, ?_, hfile, hrep⟩
    · simp only [sendLoop, h0, hi, if_true]
      exact hrun
    · intro j hj
      rw [hkeep j (by omega)]
      simp only
      rw [List.getElem?_set_ne (by omega)]
    · rw [hsent]
      simp [List.range'_succ]

/-- `RunBench` passes on a fault of `sendMessages`, after the deferred `Shutdown`. -/
theorem RunBench_of_fault (E : BenchEnv) (bc bc1 : BenchClient) (w w1 : BenchWorld)
    (m : String) (hstart : E.Start = none) (hpre : bc.pregen = false)
    (hrun : BenchClient.sendMessages E bc { w with coverTraffic := false, started := true }
      bc.numberMessages bc.interval = ((bc1, w1), .fault m)) :
    BenchClient.RunBench E bc w = ((bc1, w1.Shutdown), .fault m) := by
  simp only [BenchClient.RunBench, hstart, hpre, Bool.false_eq_true, if_false, hrun]

/-- C10: in the mode without a pre-generated packet any send failure is fatal. If the calls
of `SendMessage` for the messages before message `i` succeed and the call for message `i`
returns `err`, then `sendMessages` faults with `err` (the `panic(err)`), the entries of index
`i` and above are still the zero values `NewBenchClient` made, the messages handed to
`SendMessage` are those of indices `0 .. i` and no other, and `RunBench` (whose `Start`
succeeded) ends in the same fault with the summary file and the report untouched. -/
theorem sendMessages_failure_is_fatal (E : BenchEnv) (n : Nat) (interval : Duration)
    (bc : BenchClient) (w : BenchWorld) (i : Nat) (err : String)
    (hnew : NewBenchClient n interval false = .ret (some bc, none))
    (hi : i < n)
    (hok : ∀ j, j < i → E.SendMessage (w.sent.length + j) (payloadPrefix ++ toString j) = none)
    (hfail : E.SendMessage (w.sent.length + i) (payloadPrefix ++ toString i) = some err) :
    (∃ bc1 w1, BenchClient.sendMessages E bc w n interval = ((bc1, w1), .fault err) ∧
      (∀ j, i ≤ j → j < n → bc1.sentMessages[j]? = some default) ∧
      w1.sent = w.sent ++ (List.range (i + 1)).map (fun j => payloadPrefix ++ toString j)) ∧
    (E.Start = none →
      ∃ bc2 w2, BenchClient.RunBench E bc w = ((bc2, w2), .fault err) ∧
        w2.file = w.file ∧ w2.report = w.report ∧
        w2.sent = w.sent ++ (List.range (i + 1)).map (fun j => payloadPrefix ++ toString j)) := by
  have hbc := NewBenchClient_eq n interval false bc hnew
  have hlen : bc.sentMessages.length = n := by rw [hbc]; simp
  have hpre : bc.pregen = false := by rw [hbc]
  have hnum : bc.numberMessages = (n : Int) := by rw [hbc]
  have hint : bc.interval = interval := by rw [hbc]
  have hzero : ∀ j, j < n → bc.sentMessages[j]? = some default := by
    intro j hj
    rw [hbc]
    simp [List.getElem?_replicate, hj]
  have hs : ∀ w0 : BenchWorld,
      BenchClient.sendMessages E bc w0 n interval = sendLoop E interval n 0 bc w0 := by
    intro w0
    simp [BenchClient.sendMessages, hpre]
  constructor
  · obtain ⟨sm, w1, hrun, hkeep, hsent, _, _⟩ :=
      sendLoop_fail E interval err i n 0 bc w hi (by omega)
        (by intro j hj; simpa using hok j hj) (by simpa using hfail)
    refine ⟨{ bc with sentMessages := sm }, w1, by rw [hs]; exact hrun, ?_, ?_⟩
    · intro j h1 h2
      simp only
      rw [hkeep j (by omega)]
      exact hzero j h2
    · rw [hsent, List.range_eq_range']
  · intro hstart
    obtain ⟨sm, w1, hrun, _, hsent, hfile, hrep⟩ :=
      sendLoop_fail E interval err i n 0 bc
        { w with coverTraffic := false, started := true } hi (by omega)
        (by intro j hj; simpa using hok j hj) (by simpa using hfail)
    have e1 : BenchClient.sendMessages E bc { w with coverTraffic := false, started := true }
          bc.numberMessages bc.interval
        = BenchClient.sendMessages E bc { w with coverTraffic := false, started := true }
            n interval := by
      rw [hnum, hint]
    refine ⟨{ bc with sentMessages := sm }, w1.Shutdown, ?_, hfile, hrep, ?_⟩
    · exact RunBench_of_fault E bc _ w w1 err hstart hpre (e1.trans ((hs _).trans hrun))
    · show w1.sent = _
      rw [hsent, List.range_eq_range']

theorem sendMessages_failure_is_fatal_witness :
    (NewBenchClient 5 100000000 false
        = .ret (some ⟨5, 100000000, List.replicate 5 default, false, none⟩, none)) ∧
      (2 < 5) ∧
      (BenchClient.RunBench benchEnvFail ⟨5, 100000000, List.replicate 5 default, false, none⟩
          (BenchWorld.init 0)).2 = .fault "connection refused" ∧
      ((BenchClient.RunBench benchEnvFail ⟨5, 100000000, List.replicate 5 default, false, none⟩
          (BenchWorld.init 0)).1.1.sentMessages.map (fun m => m.content)
        = ["testMessage0", "testMessage1", "", "", ""]) ∧
      (∃ bc1 w1,
        BenchClient.sendMessages benchEnvFail
            ⟨5, 100000000, List.replicate 5 default, false, none⟩ (BenchWorld.init 0) 5 100000000
          = ((bc1, w1), .fault "connection refused") ∧
        (∀ j, 2 ≤ j → j < 5 → bc1.sentMessages[j]? = some default) ∧
        w1.sent = (BenchWorld.init 0).sent
          ++ (List.range (2 + 1)).map (fun j => payloadPrefix ++ toString j)) ∧
      (benchEnvFail.Start = none →
        ∃ bc2 w2,
          BenchClient.RunBench benchEnvFail
              ⟨5, 100000000, List.replicate 5 default, false, none⟩ (BenchWorld.init 0)
            = ((bc2, w2), .fault "connection refused") ∧
          w2.file = (BenchWorld.init 0).file ∧ w2.report = (BenchWorld.init 0).report ∧
          w2.sent = (BenchWorld.init 0).sent
            ++ (List.range (2 + 1)).map (fun j => payloadPrefix ++ toString j)) :=
  have hok : ∀ j, j < 2 →
      benchEnvFail.SendMessage ((BenchWorld.init 0).sent.length + j)
        (payloadPrefix ++ toString j) = none := by
    intro j hj
    show (if 0 + j = 2 then some "connection refused" else none) = none
    rw [if_neg (by omega)]
  ⟨by decide, by decide, by decide, by decide,
    sendMessages_failure_is_fatal benchEnvFail 5 100000000
      ⟨5, 100000000, List.replicate 5 default, false, none⟩ (BenchWorld.init 0) 2
      "connection refused" (by decide) (by decide) hok rfl⟩

/-! ## Permute as a rearrangement -/

/-- A list that holds `slice[k]` at position `p[k]`, for a permutation `p` of the positions,
is a rearrangement of `slice`. -/
theorem perm_of_placement {α : Type} [Inhabited α] (slice res : List α) (p : List Nat)
    (hp : p.Perm (List.range slice.length)) (hl : res.length = slice.length)
    (hk : ∀ k, k < slice.length → ∀ v, p[k]? = some v → res[v]? = slice[k]?) :
    res.Perm slice := by
  have hpl : p.length = slice.length := by simpa using hp.length_eq
  have h1 : slice = p.map (fun v => res[v]?.getD default) := by
    apply List.ext_getElem?
    intro k
    by_cases hkl : k < slice.length
    · have hkp : k < p.length := by omega
      have hv : p[k]? = some p[k] := List.getElem?_eq_getElem hkp
      have := hk k hkl p[k] hv
      rw [List.getElem?_map, hv, Option.map_some', this, List.getElem?_eq_getElem hkl]
      rfl
    · rw [List.getElem?_eq_none (by omega), List.getElem?_eq_none (by simp; omega)]
  have h2 : res = (List.range slice.length).map (fun v => res[v]?.getD default) := by
    apply List.ext_getElem?
    intro k
    by_cases hkl : k < slice.length
    · have hkr : k < res.length := by omega
      rw [List.getElem?_map, List.getElem?_range hkl, Option.map_some',
        List.getElem?_eq_getElem hkr]
      rfl
    · rw [List.getElem?_eq_none (by omega), List.getElem?_eq_none (by simp; omega)]
  rw [h2]
  conv => rhs; rw [h1]
  exact (hp.map _).symm

/-- `Permute` returns an error only for the empty slice. -/
theorem Permute_error_iff {ρ : Type} (R : MathRand ρ) (w : World ρ) (slice : List MixConfig) :
    (∃ v e, (Permute R w slice).2 = .ret (v, some e)) ↔ slice = [] := by
  constructor
  · rintro ⟨v, e, h⟩
    by_contra hne
    have hl : slice.length ≠ 0 := fun h0 => hne (List.length_eq_zero.mp h0)
    simp only [Permute, hl, if_false] at h
    cases hloop : permuteLoop slice 0 (R.Perm (R.Seed w.now) slice.length).1
        (List.replicate slice.length default) with
    | ret res => rw [hloop] at h; cases h
    | fault m => rw [hloop] at h; cases h
  · intro he
    subst he
    exact ⟨none, " cannot permute an empty list of mixes", rfl⟩

/-- C12: `Permute(slice)` returns an error exactly when `slice` is empty, and then the
result is nil. For every non-empty slice and every permutation `p` of
`0 .. len(slice) - 1` that `rand.Perm` yields, it returns a nil error and a slice `res` of
the length of `slice` with `res[p[i]] = slice[i]` for every `i`, so `res` is a rearrangement
of `slice` with the same multiset of elements. The embedding passes `slice` by value: the
loop reads it and writes only the fresh `permutedData`. -/
theorem Permute_rearranges {ρ : Type} (R : MathRand ρ) (w : World ρ)
    (slice : List MixConfig) :
    ((∃ v e, (Permute R w slice).2 = .ret (v, some e)) ↔ slice = []) ∧
    (slice = [] →
      Permute R w slice = (w, .ret (none, some " cannot permute an empty list of mixes"))) ∧
    (slice ≠ [] →
      (R.Perm (R.Seed w.now) slice.length).1.Perm (List.range slice.length) →
      ∃ res, (Permute R w slice).2 = .ret (some res, none) ∧
        res.length = slice.length ∧
        (∀ i, i < slice.length → ∀ v,
          (R.Perm (R.Seed w.now) slice.length).1[i]? = some v → res[v]? = slice[i]?) ∧
        res.Perm slice) := by
  refine ⟨Permute_error_iff R w slice, ?_, ?_⟩
  · intro he
    subst he
    rfl
  · intro hne hp
    have hl : slice.length ≠ 0 := fun h0 => hne (List.length_eq_zero.mp h0)
    obtain ⟨res, hP, hlen, hk⟩ := Permute_of_perm R w slice hl hp
    exact ⟨res, hP, hlen, hk, perm_of_placement slice res _ hp hlen hk⟩

theorem Permute_rearranges_witness :
    ([mixA, mixB, mixC] ≠ []) ∧
      ((toyRand.Perm (toyRand.Seed world0.now) [mixA, mixB, mixC].length).1.Perm
        (List.range [mixA, mixB, mixC].length)) ∧
      (Permute toyRand world0 [mixA, mixB, mixC]).2 = .ret (some [mixC, mixB, mixA], none) ∧
      ∃ res, (Permute toyRand world0 [mixA, mixB, mixC]).2 = .ret (some res, none) ∧
        res.length = [mixA, mixB, mixC].length ∧
        (∀ i, i < [mixA, mixB, mixC].length → ∀ v,
          (toyRand.Perm (toyRand.Seed world0.now) [mixA, mixB, mixC].length).1[i]? = some v →
            res[v]? = [mixA, mixB, mixC][i]?) ∧
        res.Perm [mixA, mixB, mixC] :=
  ⟨by decide, by decide, by decide,
    (Permute_rearranges toyRand world0 [mixA, mixB, mixC]).2.2 (by decide) (by decide)⟩

/-! ## Where the randomness comes from -/

/-- On a non-empty slice `Permute` overwrites the state of the global generator: the state
it leaves is the one `rand.Seed(clock reading)` followed by `rand.Perm` gives, whatever the
state was before. -/
theorem Permute_reseeds {ρ : Type} (R : MathRand ρ) (now : Int) (g : ρ)
    (slice : List MixConfig) (hne : slice ≠ []) :
    (Permute R ⟨now, g⟩ slice).1.rng = (R.Perm (R.Seed now) slice.length).2 := by
  have hl : slice.length ≠ 0 := fun h0 => hne (List.length_eq_zero.mp h0)
  simp only [Permute, hl, if_false]
  cases permuteLoop slice 0 (R.Perm (R.Seed now) slice.length).1
      (List.replicate slice.length default) <;> rfl

/-- The values the five functions return do not depend on the state the global generator
was in: at a given clock reading they are the same for any two prior states. -/
theorem results_from_clock_only {ρ : Type} (R : MathRand ρ) (rnd : ℚ → F64) (now : Int)
    (g1 g2 : ρ) (slice : List MixConfig) (data : List MixPubs) (length : Int) (x : F64) :
    (Permute R ⟨now, g1⟩ slice).2 = (Permute R ⟨now, g2⟩ slice).2 ∧
    (RandomSample R ⟨now, g1⟩ slice length).2 = (RandomSample R ⟨now, g2⟩ slice length).2 ∧
    (RandomExponential R rnd ⟨now, g1⟩ x).2 = (RandomExponential R rnd ⟨now, g2⟩ x).2 ∧
    (Client.GenerateDelaySequence R rnd ⟨now, g1⟩ x length).2
      = (Client.GenerateDelaySequence R rnd ⟨now, g2⟩ x length).2 ∧
    (Client.GetRandomMixSequence R ⟨now, g1⟩ data length).2
      = (Client.GetRandomMixSequence R ⟨now, g2⟩ data length).2 := by
  have hP : ∀ g : ρ, (Permute R ⟨now, g⟩ slice).2
      = if slice.length = 0 then .ret (none, some " cannot permute an empty list of mixes")
        else match permuteLoop slice 0 (R.Perm (R.Seed now) slice.length).1
            (List.replicate slice.length default) with
          | .fault m => .fault m
          | .ret permutedData => .ret (some permutedData, none) := by
    intro g
    by_cases h0 : slice.length = 0
    · simp [Permute, h0]
    · simp only [Permute, h0, if_false]
      cases permuteLoop slice 0 (R.Perm (R.Seed now) slice.length).1
        (List.replicate slice.length default) <;> rfl
  have hS : ∀ g : ρ, (RandomSample R ⟨now, g⟩ slice length).2
      = if (slice.length : Int) < length then
          .ret (none, some " cannot take a sample larger than the given list")
        else match (Permute R ⟨now, g⟩ slice).2 with
          | .fault m => .fault m
          | .ret (_, some err) => .ret (none, some err)
          | .ret (permuted, none) =>
              if length < 0 ∨ ((permuted.getD []).length : Int) < length then
                .fault "slice bounds out of range"
              else .ret (permuted.map (fun p => p.take length.toNat), none) := by
    intro g
    by_cases hlt : (slice.length : Int) < length
    · simp [RandomSample, hlt]
    · simp only [RandomSample, hlt, if_false]
      rcases hPg : Permute R ⟨now, g⟩ slice with ⟨w1, o⟩
      rcases o with ⟨v, e⟩ | m
      · cases e with
        | some err => rfl
        | none =>
          simp only
          split <;> rfl
      · rfl
  refine ⟨?_, ?_, ?_, rfl, rfl⟩
  · rw [hP g1, hP g2]
  · rw [hS g1, hS g2, hP g1, hP g2]
  · simp only [RandomExponential]

/-- C11, at the failing inputs: every one of the five functions calls
`rand.Seed(time.Now().UTC().UnixNano())` on the global generator before it draws. Called at
clock reading 0 with the global generator in state 7, `Permute`, `RandomSample`,
`RandomExponential`, `GenerateDelaySequence` and `GetRandomMixSequence` each leave the
generator in a state other than 7 (the state seeded from the clock, advanced by the draws
made), and each returns what it returns when the generator was in state 8 instead: the
result is fixed by the clock reading. At clock reading 1 `Permute` returns another order. -/
theorem global_generator_reseeded_per_call :
    ((Permute toyRand ⟨0, 7⟩ [mixA, mixB]).1.rng = 1 ∧
      (Permute toyRand ⟨0, 7⟩ [mixA, mixB]).2 = .ret (some [mixB, mixA], none) ∧
      (Permute toyRand ⟨0, 8⟩ [mixA, mixB]).2 = .ret (some [mixB, mixA], none) ∧
      (Permute toyRand ⟨1, 7⟩ [mixA, mixB]).2 = .ret (some [mixA, mixB], none)) ∧
    ((RandomSample toyRand ⟨0, 7⟩ [mixA, mixB] 1).1.rng = 1 ∧
      (RandomSample toyRand ⟨0, 7⟩ [mixA, mixB] 1).2 = .ret (some [mixB], none) ∧
      (RandomSample toyRand ⟨0, 8⟩ [mixA, mixB] 1).2 = .ret (some [mixB], none)) ∧
    ((RandomExponential toyRand F64.exact ⟨0, 7⟩ (F64.fin 2)).1.rng = 1 ∧
      (RandomExponential toyRand F64.exact ⟨0, 7⟩ (F64.fin 2)).2
        = (RandomExponential toyRand F64.exact ⟨0, 8⟩ (F64.fin 2)).2) ∧
    ((Client.GenerateDelaySequence toyRand F64.exact ⟨0, 7⟩ (F64.fin 5) 2).1.rng = 2 ∧
      (Client.GenerateDelaySequence toyRand F64.exact ⟨0, 7⟩ (F64.fin 5) 2).2
        = (Client.GenerateDelaySequence toyRand F64.exact ⟨0, 8⟩ (F64.fin 5) 2).2) ∧
    ((Client.GetRandomMixSequence toyRand ⟨0, 7⟩ alice.ActiveMixes 2).1.rng = 1 ∧
      (Client.GetRandomMixSequence toyRand ⟨0, 7⟩ alice.ActiveMixes 2).2
        = .ret [⟨"Mix3", "localhost", "9003", 3⟩, ⟨"Mix2", "localhost", "9002", 2⟩] ∧
      (Client.GetRandomMixSequence toyRand ⟨0, 8⟩ alice.ActiveMixes 2).2
        = .ret [⟨"Mix3", "localhost", "9003", 3⟩, ⟨"Mix2", "localhost", "9002", 2⟩]) := by
  refine ⟨⟨?_, ?_, ?_, ?_⟩, ⟨?_, ?_, ?_⟩, ⟨?_, ?_⟩, ⟨?_, ?_⟩, ⟨?_, ?_, ?_⟩⟩ <;> rfl

/-! ## Index bounds in the benchmark client -/

/-- With the indices `i .. i + k - 1` in bounds, the loop of `sendMessages` either runs to
its end or stops at the `panic(err)` for an error `err` that `SendMessage` returned; the
length of `sentMessages` stays as it was. -/
theorem sendLoop_in_bounds (E : BenchEnv) (interval : Duration) :
    ∀ (k i : Nat) (bc : BenchClient) (w : BenchWorld), i + k ≤ bc.sentMessages.length →
      (∃ bc1 w1, sendLoop E interval k i bc w = ((bc1, w1), .ret ()) ∧
        bc1.sentMessages.length = bc.sentMessages.length) ∨
      (∃ bc1 w1 c m err, sendLoop E interval k i bc w = ((bc1, w1), .fault err) ∧
        E.SendMessage c m = some err) := by
  intro k
  induction k with
  | zero =>
    intro i bc w _
    exact Or.inl ⟨bc, w, rfl, rfl⟩
  | succ k ih =>
    intro i bc w hlen
    have hi : i < bc.sentMessages.length := by omega
    cases hs : E.SendMessage w.sent.length (payloadPrefix ++ toString i) with
    | some err =>
      refine Or.inr ⟨bc,
        { w with sent := w.sent ++ [payloadPrefix ++ toString i],
                 now := w.now + E.sendDur w.sent.length },
        w.sent.length, payloadPrefix ++ toString i, err, ?_, hs⟩
      simp only [sendLoop, hs]
    | none =>
      have hstep : sendLoop E interval (k + 1) i bc w
          = sendLoop E interval k (i + 1)
              { bc with sentMessages := (bc.sentMessages.set i
                  (timestampedMessage.mk (payloadPrefix ++ toString i)
                    (w.now + E.sendDur w.sent.length))) }
              { w with sent := w.sent ++ [payloadPrefix ++ toString i],
                       now := w.now + E.sendDur w.sent.length
                         + E.sleepDur w.sleeps interval,
                       sleeps := w.sleeps + 1 } := by
        simp only [sendLoop, hs, hi, if_true]
      rw [hstep]
      rcases ih (i + 1)
          { bc with sentMessages := (bc.sentMessages.set i
              (timestampedMessage.mk (payloadPrefix ++ toString i)
                (w.now + E.sendDur w.sent.length))) }
          { w with sent := w.sent ++ [payloadPrefix ++ toString i],
                   now := w.now + E.sendDur w.sent.length
                     + E.sleepDur w.sleeps interval,
                   sleeps := w.sleeps + 1 }
          (by simp; omega) with ⟨bc1, w1, h1, h2⟩ | h
      · exact Or.inl ⟨bc1, w1, h1, by simpa using h2⟩
      · exact Or.inr h

/-- With the indices `i .. i + k - 1` in bounds, the pre-generated branch of `sendMessages`
runs to its end. -/
theorem pregenLoop_in_bounds (E : BenchEnv) (interval : Duration) :
    ∀ (k i : Nat) (bc : BenchClient) (w : BenchWorld), i + k ≤ bc.sentMessages.length →
      ∃ bc1 w1, pregenLoop E interval k i bc w = ((bc1, w1), .ret ()) ∧
        bc1.sentMessages.length = bc.sentMessages.length := by
  intro k
  induction k with
  | zero =>
    intro i bc w _
    exact ⟨bc, w, rfl, rfl⟩
  | succ k ih =>
    intro i bc w hlen
    have hi : i < bc.sentMessages.length := by omega
    have hstep : pregenLoop E interval (k + 1) i bc w
        = pregenLoop E interval k (i + 1)
            { bc with sentMessages := (bc.sentMessages.set i
                (timestampedMessage.mk payloadPrefix
                  (w.now + E.queueDur w.outQueue.length))) }
            { w with outQueue := w.outQueue ++ [bc.pregeneratedPacket.getD []],
                     now := w.now + E.queueDur w.outQueue.length
                       + E.sleepDur w.sleeps interval,
                     sleeps := w.sleeps + 1 } := by
      simp only [pregenLoop, hi, if_true]
    rw [hstep]
    obtain ⟨bc1, w1, h1, h2⟩ := ih (i + 1)
      { bc with sentMessages := (bc.sentMessages.set i
          (timestampedMessage.mk payloadPrefix
            (w.now + E.queueDur w.outQueue.length))) }
      { w with outQueue := w.outQueue ++ [bc.pregeneratedPacket.getD []],
               now := w.now + E.queueDur w.outQueue.length
                 + E.sleepDur w.sleeps interval,
               sleeps := w.sleeps + 1 }
      (by simp; omega)
    exact ⟨bc1, w1, h1, by simpa using h2⟩

/-- What `pregeneratePacket` leaves of the client: every field but `pregeneratedPacket`. -/
theorem pregeneratePacket_fields (E : BenchEnv) (bc : BenchClient) (message : String) :
    (bc.pregeneratePacket E message).1.sentMessages = bc.sentMessages ∧
    (bc.pregeneratePacket E message).1.numberMessages = bc.numberMessages ∧
    (bc.pregeneratePacket E message).1.interval = bc.interval ∧
    (bc.pregeneratePacket E message).1.pregen = bc.pregen := by
  unfold BenchClient.pregeneratePacket
  rcases E.EncodeMessage message with ⟨p, e⟩
  cases e with
  | some err => exact ⟨rfl, rfl, rfl, rfl⟩
  | none =>
    simp only
    rcases E.WrapWithFlag (p.getD []) with ⟨q, e2⟩
    cases e2 with
    | some err => exact ⟨rfl, rfl, rfl, rfl⟩
    | none => exact ⟨rfl, rfl, rfl, rfl⟩

/-- `RunBench` returns the error of the pre-generation, after the deferred `Shutdown`. -/
theorem RunBench_pregen_error (E : BenchEnv) (bc bc1 : BenchClient) (w : BenchWorld)
    (err : String) (hstart : E.Start = none)
    (hpre : (if bc.pregen then BenchClient.pregeneratePacket E bc payloadPrefix
      else (bc, none)) = (bc1, some err)) :
    BenchClient.RunBench E bc w =
      ((bc1, ({ w with coverTraffic := false, started := true } : BenchWorld).Shutdown),
        .ret (some err)) := by
  simp only [BenchClient.RunBench, hstart, hpre]

/-- `RunBench` after a successful `Start` and a pre-generation (if any) that left the
client `bc1`. -/
theorem RunBench_started (E : BenchEnv) (bc bc1 : BenchClient) (w : BenchWorld)
    (hstart : E.Start = none)
    (hpre : (if bc.pregen then BenchClient.pregeneratePacket E bc payloadPrefix
      else (bc, none)) = (bc1, none)) :
    BenchClient.RunBench E bc w =
      match BenchClient.sendMessages E bc1 { w with coverTraffic := false, started := true }
          bc1.numberMessages bc1.interval with
      | ((bc2, w2), .fault m) => ((bc2, w2.Shutdown), .fault m)
      | ((bc2, w2), .ret _) =>
          match BenchClient.createSummaryDoc E bc2 w2 with
          | (w3, .fault m) => ((bc2, w3.Shutdown), .fault m)
          | (w3, .ret r) => ((bc2, w3.Shutdown), .ret r) := by
  simp only [BenchClient.RunBench, hstart, hpre]
  rcases BenchClient.sendMessages E bc1 { w with coverTraffic := false, started := true }
      bc1.numberMessages bc1.interval with ⟨⟨bc2, w2⟩, o⟩
  cases o with
  | fault m => rfl
  | ret u =>
    simp only
    rcases BenchClient.createSummaryDoc E bc2 w2 with ⟨w3, o3⟩
    cases o3 with
    | fault m => rfl
    | ret r => cases r <;> rfl

/-- With no entry, `createSummaryDoc` writes the header and faults on `sentMessages[0]`,
provided the file can be created. -/
theorem createSummaryDoc_empty (E : BenchEnv) (bc : BenchClient) (w : BenchWorld)
    (hc : E.Create = none) (he : bc.sentMessages = []) :
    bc.createSummaryDoc E w
      = ({ w with file := some [SummaryLine.header] }, .fault "index out of range") := by
  unfold BenchClient.createSummaryDoc
  rw [hc, he]
  rfl

/-- With at least one entry, `createSummaryDoc` does not fault. -/
theorem createSummaryDoc_nonempty (E : BenchEnv) (bc : BenchClient) (w : BenchWorld)
    (hne : bc.sentMessages ≠ []) :
    ∃ r, (bc.createSummaryDoc E w).2 = .ret r := by
  cases hc : E.Create with
  | some err =>
    refine ⟨some err, ?_⟩
    unfold BenchClient.createSummaryDoc
    rw [hc]
  | none => exact ⟨none, createSummaryDoc_ret E bc w hc hne⟩

/-- With `n = len(sentMessages)` and `n` a natural number, `sendMessages(n, interval)`
either returns, leaving the length of `sentMessages` as it was, or stops at the
`panic(err)` for an error `err` that `SendMessage` returned. -/
theorem sendMessages_in_bounds (E : BenchEnv) (bc : BenchClient) (w : BenchWorld) (n : Nat)
    (interval : Duration) (hlen : bc.sentMessages.length = n) :
    (∃ bc1 w1, BenchClient.sendMessages E bc w n interval = ((bc1, w1), .ret ()) ∧
      bc1.sentMessages.length = n) ∨
    (∃ bc1 w1 c m err, BenchClient.sendMessages E bc w n interval = ((bc1, w1), .fault err) ∧
      E.SendMessage c m = some err) := by
  unfold BenchClient.sendMessages
  simp only [Int.toNat_ofNat]
  split
  · obtain ⟨bc1, w1, h1, h2⟩ := pregenLoop_in_bounds E interval n 0 bc w (by omega)
    exact Or.inl ⟨bc1, w1, h1, by omega⟩
  · rcases sendLoop_in_bounds E interval n 0 bc w (by omega) with ⟨bc1, w1, h1, h2⟩ | h
    · exact Or.inl ⟨bc1, w1, h1, by omega⟩
    · exact Or.inr h

/-- C13, as the code has it: `NewBenchClient` makes `sentMessages` of length exactly
`numberMessages`, so the read of `sentMessages[0]` in `createSummaryDoc` is in bounds
exactly when `numberMessages >= 1`. For a client created with `numberMessages = 0` whose
`Start`, file creation and (when `pregen` is set) packet pre-generation succeed, `RunBench`
sends nothing, writes the header and then ends in the index-out-of-range fault of
`createSummaryDoc`. For `numberMessages >= 1` no index is out of bounds: `RunBench` returns,
or ends in the `panic(err)` for an error `err` that `SendMessage` returned. -/
theorem RunBench_index_bounds (E : BenchEnv) (n : Nat) (interval : Duration) (pregen : Bool)
    (bc : BenchClient) (w : BenchWorld)
    (hnew : NewBenchClient n interval pregen = .ret (some bc, none)) :
    (bc.sentMessages.length = n ∧ ((bc.sentMessages[0]?).isSome ↔ 1 ≤ n)) ∧
    (n = 0 → E.Start = none → E.Create = none →
      (pregen = true → (bc.pregeneratePacket E payloadPrefix).2 = none) →
      ∃ bc1 w1, BenchClient.RunBench E bc w = ((bc1, w1), .fault "index out of range") ∧
        w1.sent = w.sent ∧ w1.outQueue = w.outQueue ∧
        w1.file = some [SummaryLine.header]) ∧
    (1 ≤ n →
      (∃ bc1 w1 r, BenchClient.RunBench E bc w = ((bc1, w1), .ret r)) ∨
      (∃ bc1 w1 c m err, BenchClient.RunBench E bc w = ((bc1, w1), .fault err) ∧
        E.SendMessage c m = some err)) := by
  have hbc := NewBenchClient_eq n interval pregen bc hnew
  have hlen : bc.sentMessages.length = n := by rw [hbc]; simp
  have hnum : bc.numberMessages = (n : Int) := by rw [hbc]
  have hint : bc.interval = interval := by rw [hbc]
  have hpg : bc.pregen = pregen := by rw [hbc]
  refine ⟨⟨hlen, ?_⟩, ?_, ?_⟩
  · constructor
    · intro h
      by_contra hn
      have h0 : bc.sentMessages[0]? = none := List.getElem?_eq_none (by omega)
      rw [h0] at h
      cases h
    · intro hn
      rw [List.getElem?_eq_getElem (by omega)]
      rfl
  · intro hn hstart hcreate hpreg
    subst hn
    obtain ⟨bc1, hpre, hsm, hn1⟩ : ∃ bc1 : BenchClient,
        (if bc.pregen then BenchClient.pregeneratePacket E bc payloadPrefix else (bc, none))
          = (bc1, none) ∧ bc1.sentMessages = [] ∧ bc1.numberMessages = 0 := by
      have hnil : bc.sentMessages = [] := List.length_eq_zero.mp hlen
      cases hp : pregen with
      | false =>
        refine ⟨bc, ?_, hnil, by rw [hnum]; rfl⟩
        rw [hpg, hp]
        rfl
      | true =>
        obtain ⟨f1, f2, _, _⟩ := pregeneratePacket_fields E bc payloadPrefix
        refine ⟨(bc.pregeneratePacket E payloadPrefix).1, ?_, by rw [f1]; exact hnil,
          by rw [f2, hnum]; rfl⟩
        rw [hpg, hp]
        simp only [if_true]
        exact Prod.ext rfl (hpreg hp)
    have hsend : ∀ w0 : BenchWorld,
        BenchClient.sendMessages E bc1 w0 bc1.numberMessages bc1.interval
          = ((bc1, w0), .ret ()) := by
      intro w0
      rw [hn1]
      unfold BenchClient.sendMessages
      split <;> rfl
    refine ⟨bc1,
      ({ w with coverTraffic := false, started := true,
                file := some [SummaryLine.header] } : BenchWorld).Shutdown, ?_, rfl, rfl, rfl⟩
    rw [RunBench_started E bc bc1 w hstart hpre, hsend]
    simp only
    rw [createSummaryDoc_empty E bc1 _ hcreate hsm]
  · intro hn
    cases hstart : E.Start with
    | some err =>
      refine Or.inl ⟨bc, ({ w with coverTraffic := false } : BenchWorld).Shutdown, some err, ?_⟩
      simp only [BenchClient.RunBench, hstart]
    | none =>
      rcases hpre : (if bc.pregen then BenchClient.pregeneratePacket E bc payloadPrefix
          else (bc, none)) with ⟨bc1, e⟩
      cases e with
      | some err =>
        exact Or.inl ⟨bc1, _, some err, RunBench_pregen_error E bc bc1 w err hstart hpre⟩
      | none =>
        have hf : bc1.sentMessages = bc.sentMessages ∧ bc1.numberMessages = bc.numberMessages
            ∧ bc1.interval = bc.interval := by
          by_cases hp : bc.pregen = true
          · rw [if_pos hp] at hpre
            obtain ⟨f1, f2, f3, _⟩ := pregeneratePacket_fields E bc payloadPrefix
            rw [hpre] at f1 f2 f3
            exact ⟨f1, f2, f3⟩
          · rw [if_neg hp] at hpre
            injection hpre with h1 _
            subst h1
            exact ⟨rfl, rfl, rfl⟩
        rw [RunBench_started E bc bc1 w hstart hpre, hf.2.1, hnum]
        rcases sendMessages_in_bounds E bc1 { w with coverTraffic := false, started := true }
            n bc1.interval (by rw [hf.1]; exact hlen) with ⟨bc2, w2, h1, h2⟩ | ⟨bc2, w2, c, m, err, h1, h2⟩
        · rw [h1]
          simp only
          have hne : bc2.sentMessages ≠ [] := by
            intro he
            rw [he] at h2
            simp at h2
            omega
          obtain ⟨r, hr⟩ := createSummaryDoc_nonempty E bc2 w2 hne
          rcases hdoc : BenchClient.createSummaryDoc E bc2 w2 with ⟨w3, o3⟩
          rw [hdoc] at hr
          simp only at hr
          subst hr
          exact Or.inl ⟨bc2, w3.Shutdown, r, rfl⟩
        · rw [h1]
          exact Or.inr ⟨bc2, w2.Shutdown, c, m, err, rfl, h2⟩

theorem RunBench_index_bounds_witness :
    (NewBenchClient 0 100000000 false = .ret (some ⟨0, 100000000, [], false, none⟩, none)) ∧
      (BenchClient.RunBench benchEnvOk ⟨0, 100000000, [], false, none⟩ (BenchWorld.init 0)).2
        = .fault "index out of range" ∧
      (BenchClient.RunBench benchEnvOk ⟨5, 100000000, List.replicate 5 default, false, none⟩
          (BenchWorld.init 0)).2 = .ret none ∧
      ((([] : List timestampedMessage).length = 0 ∧
          ((([] : List timestampedMessage)[0]?).isSome ↔ 1 ≤ 0)) ∧
        (0 = 0 → benchEnvOk.Start = none → benchEnvOk.Create = none →
          (false = true →
            (BenchClient.pregeneratePacket benchEnvOk ⟨0, 100000000, [], false, none⟩
              payloadPrefix).2 = none) →
          ∃ bc1 w1,
            BenchClient.RunBench benchEnvOk ⟨0, 100000000, [], false, none⟩ (BenchWorld.init 0)
              = ((bc1, w1), .fault "index out of range") ∧
            w1.sent = (BenchWorld.init 0).sent ∧ w1.outQueue = (BenchWorld.init 0).outQueue ∧
            w1.file = some [SummaryLine.header]) ∧
        (1 ≤ 0 →
          (∃ bc1 w1 r,
            BenchClient.RunBench benchEnvOk ⟨0, 100000000, [], false, none⟩ (BenchWorld.init 0)
              = ((bc1, w1), .ret r)) ∨
          (∃ bc1 w1 c m err,
            BenchClient.RunBench benchEnvOk ⟨0, 100000000, [], false, none⟩ (BenchWorld.init 0)
              = ((bc1, w1), .fault err) ∧
            benchEnvOk.SendMessage c m = some err))) :=
  ⟨by decide, by decide, by decide,
    RunBench_index_bounds benchEnvOk 0 100000000 false ⟨0, 100000000, [], false, none⟩
      (BenchWorld.init 0) (by decide)⟩

/-- C13 fails as stated: a client created with `numberMessages = 0` and `pregen = true`,
in an environment where `Start` and the file creation succeed and `EncodeMessage` fails,
does not reach `createSummaryDoc`: `RunBench` returns the error of the pre-generation. -/
theorem RunBench_zero_messages_returns_error :
    (NewBenchClient 0 100000000 true = .ret (some ⟨0, 100000000, [], true, none⟩, none)) ∧
      benchEnvNoEncode.Start = none ∧ benchEnvNoEncode.Create = none ∧
      (BenchClient.RunBench benchEnvNoEncode ⟨0, 100000000, [], true, none⟩
          (BenchWorld.init 0)).2 = .ret (some "encoding failed") ∧
      (BenchClient.RunBench benchEnvNoEncode ⟨0, 100000000, [], true, none⟩
          (BenchWorld.init 0)).1.2.file = none := by
  refine ⟨by decide, rfl, rfl, by decide, by decide⟩

end Loopix
